import Mathlib

/-!
# xmidt-org/vouch: request decoration with Basic and OAuth2 credentials

A shallow embedding of the Go packages `vouch` (auth.go, options.go), `basic`
(basic/basic.go), `oauth` (oauth/oauth.go) and `events` (events/events.go).

Conventions of the embedding.

* A Go `error` is `Option GoError`; `none` is the nil error.
* `time.Time` and `time.Duration` are integers counting nanoseconds; the zero
  `time.Time` is `0`.  Saturation of `Time.Add` at the ends of the calendar is
  not modelled.
* Go `int` and `int64` are `Int`; the one multiplication of the source that can
  leave the 64 bit range is wrapped explicitly (`wrapInt64`).
* A Go `float64` is given by its exact value (`Float64`); the one `float64`
  product of the source is computed with IEEE 754 rounding to 53 significant
  bits (`round53`, `mulToDuration`).
* The functions of `golang.org/x/oauth2` that build token sources are a
  parameter (`oauth.Oauth2`); `errors.Join`, `errors.Is`, `sort.Slice`,
  `Header.Set` and `base64.StdEncoding` follow the Go standard library.
* Everything a method mutates through a pointer lives in `World`, which is
  passed in and returned: the clock, the events handed to `dispatch`, the heap
  of `*oauth2.Token` objects, the two remembered fields of
  `safetyMarginTokenSource`, the two listener collections of `Vouch` and the
  calls made on their listeners.
* The listener collection `eventor.Eventor` of github.com/xmidt-org/eventor is
  not part of the repository and is modelled from the spec (`Eventor`).
* The request is passed and returned separately from `World`, so that a token
  source, which never sees the request, cannot touch it.
-/

/-! ## Errors -/

/-- A Go error value: either an error without inner structure, identified by
its message, or the result of `errors.Join`, whose `Unwrap() []error` is the
list it carries. -/
inductive GoError where
  | leaf (msg : String)
  | join (errs : List GoError)

mutual
/-- Comparison of two error values (`err == target` in `errors.Is`), by
structure.  Go compares the interface values, which for the pointer-typed
errors of the standard library is identity: two errors that are equal here may
be distinct in Go, while an error always equals itself under both readings. -/
def GoError.beq : GoError → GoError → Bool
  | .leaf a, .leaf b => a == b
  | .join xs, .join ys => GoError.beqList xs ys
  | _, _ => false
/-- Comparison of two lists of error values, position by position. -/
def GoError.beqList : List GoError → List GoError → Bool
  | [], [] => true
  | x :: xs, y :: ys => GoError.beq x y && GoError.beqList xs ys
  | _, _ => false
end

/-- Go `errors.Join(errs...)`: nil values are discarded; the result is nil when
nothing is left, and otherwise a new error wrapping the remaining ones in
order. -/
def errorsJoin (errs : List (Option GoError)) : Option GoError :=
  match errs.filterMap id with
  | [] => none
  | e :: es => some (GoError.join (e :: es))

mutual
/-- Go `errors.Is(err, target)` for a non-nil `err`: the tree below `err`
(through `Unwrap() []error`) is searched depth first for `target`. -/
def errorsIs (target : GoError) : GoError → Bool
  | .leaf m => GoError.beq (.leaf m) target
  | .join es => GoError.beq (.join es) target || errorsIsAny target es
/-- The loop of `errors.Is` over the errors of a join. -/
def errorsIsAny (target : GoError) : List GoError → Bool
  | [] => false
  | e :: es => errorsIs target e || errorsIsAny target es
end

/-! ## Time, requests, events -/

/-- Go `time.Time`, as nanoseconds; `0` is the zero time. -/
abbrev Time := Int

/-- Go `time.Duration`: a signed count of nanoseconds. -/
abbrev Duration := Int

/-- Go `http.Header`: canonical key and the values stored under it. -/
abbrev Header := List (String × List String)

/-- Go `Header.Set`: the values under `key` are replaced by the single `value`. -/
def Header.Set (h : Header) (key value : String) : Header :=
  (key, [value]) :: h.filter (fun kv => kv.1 != key)

/-- Go `Header.Get`: the first value under `key`, or the empty string. -/
def Header.Get (h : Header) (key : String) : String :=
  match h.find? (fun kv => kv.1 == key) with
  | some (_, v :: _) => v
  | _ => ""

/-- The part of `*http.Request` the decorators touch. -/
structure Request where
  Header : Header
deriving DecidableEq

namespace events

/-- Go `events.FetchEvent`; the field `Type` is spelled `Type_` here. -/
structure FetchEvent where
  At : Time := 0
  Type_ : String := ""
  Duration : Duration := 0
  Expiration : Time := 0
  OriginalExpiration : Time := 0
  Err : Option GoError := none

/-- Go `events.DecorateEvent`; the field `Type` is spelled `Type_` here. -/
structure DecorateEvent where
  At : Time := 0
  Type_ : String := ""
  Duration : Duration := 0
  Expiration : Time := 0
  Err : Option GoError := none

end events

/-- The values the source passes to a `dispatch func(any)`. -/
inductive Event where
  | fetch (e : events.FetchEvent)
  | decorate (e : events.DecorateEvent)

/-- Address of an `oauth2.Token` on the heap. -/
abbrev Ptr := Nat

/-- The fields of Go `oauth2.Token` the source reads or writes. -/
structure oauth2.Token where
  AccessToken : String := ""
  TokenType : String := ""
  Expiry : Time := 0
  ExpiresIn : Int := 0
deriving DecidableEq

/-- The heap of token objects. -/
abbrev Heap := Ptr → oauth2.Token

/-- Modelled from the spec: `eventor.Eventor[T]` of github.com/xmidt-org/eventor,
the listener collection held by `Vouch`, whose source is not part of this
repository.  The spec describes it as a synchronous multicast in registration
order, where registering returns an idempotent cancellation handle.  A
listener is named by a number; `regs` holds the live registrations in
registration order, each with a number of its own taken from `next`. -/
structure Eventor where
  next : Nat := 0
  regs : List (Nat × Nat) := []

/-- Modelled from the spec: `Eventor.Add`: the listener is registered after the
ones already there; the number of the registration is returned. -/
def Eventor.Add (e : Eventor) (listener : Nat) : Nat × Eventor :=
  (e.next, { next := e.next + 1, regs := e.regs ++ [(e.next, listener)] })

/-- Modelled from the spec: the cancel function returned by `Eventor.Add` for
the registration `reg`: that registration is removed, if it is still there. -/
def Eventor.cancel (e : Eventor) (reg : Nat) : Eventor :=
  { e with regs := e.regs.filter (fun r => r.1 != reg) }

/-- One call of a listener: `listener.OnFetchEvent(event)` or
`listener.OnDecorateEvent(event)`, made for the registration `reg`. -/
inductive Delivery where
  | onFetch (reg listener : Nat) (event : events.FetchEvent)
  | onDecorate (reg listener : Nat) (event : events.DecorateEvent)

/-- Everything the methods read or mutate besides the request. -/
structure World where
  /-- successive readings of the clock: `clock n` is what the reading number
  `n` of `time.Now` returns -/
  clock : Nat → Time
  /-- how many readings of the clock have been taken -/
  ticks : Nat
  /-- the events handed to `Vouch.dispatch`, oldest first -/
  dispatched : List Event
  /-- the token objects -/
  heap : Heap
  /-- how many times the exchanger (the base token source) has been called -/
  exchanges : Nat
  /-- `safetyMarginTokenSource.lastToken` -/
  lastToken : Option Ptr
  /-- `safetyMarginTokenSource.lastAdjusted` -/
  lastAdjusted : Bool
  /-- `Vouch.fetchListeners` -/
  fetchListeners : Eventor := {}
  /-- `Vouch.decorateListeners` -/
  decorateListeners : Eventor := {}
  /-- the calls of listeners made so far, oldest first -/
  delivered : List Delivery := []

/-- Modelled from the spec: `Eventor.Visit`: `f` is called for every live
registration, in registration order. -/
def Eventor.Visit (e : Eventor) (f : Nat × Nat → World → World) (w : World) : World :=
  e.regs.foldl (fun w1 r => f r w1) w

/-- Go `time.Now()`. -/
def timeNow (w : World) : Time × World :=
  (w.clock w.ticks, { w with ticks := w.ticks + 1 })

/-- Go `time.Since(t)`, that is `time.Now().Sub(t)`. -/
def timeSince (t : Time) (w : World) : Duration × World :=
  ((timeNow w).1 - t, (timeNow w).2)

/-! ## float64 and int64 arithmetic -/

/-- Go `int64(x)` for a mathematical integer `x`: reduction into
`[-2^63, 2^63)` as done by a wrapping 64 bit multiplication. -/
def wrapInt64 (x : Int) : Int :=
  (x + 2 ^ 63) % 2 ^ 64 - 2 ^ 63

/-- A Go `float64` by its value: not a number, an infinity, or the finite
number `(-1)^neg * mant * 2^exp`.  Every finite `float64` has such a form with
`mant < 2^53` and `-1074 ≤ exp`. -/
inductive Float64 where
  | nan
  | inf (neg : Bool)
  | fin (neg : Bool) (mant : Nat) (exp : Int)

/-- Go `x < 0` on `float64`. -/
def Float64.ltZero : Float64 → Bool
  | .nan => false
  | .inf neg => neg
  | .fin neg mant _ => neg && decide (0 < mant)

/-- Go `x > 1` on `float64`. -/
def Float64.gtOne : Float64 → Bool
  | .nan => false
  | .inf neg => !neg
  | .fin neg mant (.ofNat e) => !neg && decide (1 < mant * 2 ^ e)
  | .fin neg mant (.negSucc e) => !neg && decide (2 ^ (e + 1) < mant)

/-- The least `s` at or above the third argument with `P < 2^(53+s)`; the
first argument bounds the search. -/
def shiftOf : Nat → Nat → Nat → Nat
  | 0, _, s => s
  | fuel + 1, P, s => if P < 2 ^ (53 + s) then s else shiftOf fuel P (s + 1)

/-- IEEE 754 rounding of the natural number `P` to 53 significant bits, to
nearest, ties to even: what `float64(P)` holds. -/
def round53 (P : Nat) : Nat :=
  let s := shiftOf P P 0
  let q := P / 2 ^ s
  let r := P % 2 ^ s
  if 2 * r < 2 ^ s then q * 2 ^ s
  else if 2 * r = 2 ^ s then (if q % 2 = 0 then q * 2 ^ s else (q + 1) * 2 ^ s)
  else (q + 1) * 2 ^ s

/-- The result of a `float64` to `int64` conversion whose value does not fit:
Go leaves it to the implementation; amd64 yields the least `int64`. -/
def int64Indefinite : Int := -2 ^ 63

/-- The whole part of `P * 2^exp`. -/
def scaleTrunc (P : Nat) : Int → Nat
  | .ofNat e => P * 2 ^ e
  | .negSucc e => P / 2 ^ (e + 1)

/-- Go `time.Duration(float64(lifetime) * m)` of oauth.go line 194: conversion
of `lifetime` to `float64`, the `float64` product, and truncation toward zero.
Scaling by a power of two commutes with rounding, so the product of
`float64(lifetime)` with `mant * 2^exp` is `round53 (float64(lifetime) * mant)`
scaled by `2^exp`. -/
def mulToDuration (lifetime : Duration) (m : Float64) : Duration :=
  match m with
  | .nan => int64Indefinite
  | .inf _ => int64Indefinite
  | .fin neg mant exp =>
    let P := round53 (round53 lifetime.natAbs * mant)
    let mag : Nat := scaleTrunc P exp
    let v : Int := if neg != decide (lifetime < 0) then -(mag : Int) else (mag : Int)
    if -2 ^ 63 ≤ v ∧ v < 2 ^ 63 then v else int64Indefinite

/-! ## Standard base64 -/

/-- The alphabet of Go `base64.StdEncoding`. -/
def base64Alphabet : List Char :=
  "ABCDEFGHIJKLMNOPQRSTUVWXYZabcdefghijklmnopqrstuvwxyz0123456789+/".toList

/-- The character for a six bit value. -/
def base64Char (n : Nat) : Char :=
  base64Alphabet.getD n 'A'

/-- Go `base64.StdEncoding.EncodeToString` on a list of bytes. -/
def base64Encode : List Nat → List Char
  | [] => []
  | [a] => [base64Char (a / 4), base64Char (a % 4 * 16), '=', '=']
  | [a, b] =>
    [base64Char (a / 4), base64Char (a % 4 * 16 + b / 16), base64Char (b % 16 * 4), '=']
  | a :: b :: c :: rest =>
    base64Char (a / 4) :: base64Char (a % 4 * 16 + b / 16) ::
      base64Char (b % 16 * 4 + c / 64) :: base64Char (c % 64) :: base64Encode rest

/-- The bytes of the UTF-8 encoding of one character. -/
def utf8Bytes (c : Char) : List Nat :=
  let n := c.toNat
  if n < 128 then [n]
  else if n < 2048 then [192 + n / 64, 128 + n % 64]
  else if n < 65536 then [224 + n / 4096, 128 + n / 64 % 64, 128 + n % 64]
  else [240 + n / 262144, 128 + n / 4096 % 64, 128 + n / 64 % 64, 128 + n % 64]

/-- The bytes of a Go string. -/
def stringBytes (s : String) : List Nat :=
  s.toList.flatMap utf8Bytes

/-- Go `Request.SetBasicAuth`: sets the Authorization header to `Basic ` and
the base64 encoding of `username:password`. -/
def Request.SetBasicAuth (r : Request) (username password : String) : Request :=
  let auth := username ++ ":" ++ password
  let value := "Basic " ++ String.mk (base64Encode (stringBytes auth))
  { Header := Header.Set r.Header "Authorization" value }

namespace basic

/-- Go `basic.BASIC_TYPE`. -/
def BASIC_TYPE : String := "basic"

/-- Go `basic.Config`. -/
structure Config where
  Priority : Int := 0
  Username : String := ""
  Password : String := ""

/-- Go `basic.Config.IsActive`. -/
def Config.IsActive (c : Config) : Bool :=
  c.Username != ""

/-- Go `basic.Basic`. -/
structure Basic where
  priority : Int
  username : String
  password : String
  dispatch : Event → World → World

/-- Go `basic.Basic.Priority`. -/
def Basic.Priority (b : Basic) : Int :=
  b.priority

/-- Go `basic.New`; a nil `dispatch` argument is `none`, a nil result is
`none`. -/
def New (config : Config) (dispatch : Option (Event → World → World)) : Option Basic :=
  if !config.IsActive then none
  else
    let priority := if config.Priority = 0 then 300 else config.Priority
    let dispatch := match dispatch with
      | none => fun _ w => w
      | some f => f
    some { username := config.Username, password := config.Password,
           priority := priority, dispatch := dispatch }

/-- Go `basic.Basic.Decorate`. -/
def Basic.Decorate (b : Basic) (req : Request) (w : World) :
    Option GoError × Request × World :=
  let evnt : events.DecorateEvent := { At := (timeNow w).1, Type_ := BASIC_TYPE }
  (none, req.SetBasicAuth b.username b.password, b.dispatch (.decorate evnt) (timeNow w).2)

end basic

namespace oauth

/-- Go `oauth.OAUTH2_TYPE`. -/
def OAUTH2_TYPE : String := "oauth2"

/-- Go `oauth.Config`; `url.Values` is a list of keys with their values. -/
structure Config where
  Priority : Int := 0
  ClientID : String := ""
  ClientSecret : String := ""
  TokenURL : String := ""
  Scopes : List String := []
  EndpointParams : List (String × List String) := []
  AuthStyle : String := ""
  ExpirationSafetyMargin : Float64 := .fin false 0 0
  DefaultTokenDuration : Duration := 0

/-- Go `oauth.Config.IsActive`. -/
def Config.IsActive (c : Config) : Bool :=
  c.ClientID != "" && c.TokenURL != ""

/-- Go `oauth2.AuthStyle`. -/
inductive AuthStyle where
  | AuthStyleAutoDetect
  | AuthStyleInParams
  | AuthStyleInHeader
deriving DecidableEq

/-- Go `oauth.styleMap`, as the lookup `styleMap[key]` with its `ok` result. -/
def styleMap (key : String) : Option AuthStyle :=
  if key = "" then some .AuthStyleAutoDetect
  else if key = "auto_detect" then some .AuthStyleAutoDetect
  else if key = "in_params" then some .AuthStyleInParams
  else if key = "in_header" then some .AuthStyleInHeader
  else none

/-- What a call of a token source returns and leaves behind. -/
structure TokenResult where
  res : Except GoError Ptr
  world : World

/-- The token exchanger, Go `oauth2.TokenSource` as returned by
`clientcredentials.Config.TokenSource`: on its call number `n` it sees the heap
and returns a token or an error, possibly allocating on the heap. -/
abbrev Exchanger := Nat → Heap → Except GoError Ptr × Heap

/-- Go `oauth.safetyMarginTokenSource` without the mutex and without
`lastToken` and `lastAdjusted`, which are in `World`. -/
structure safetyMarginTokenSource where
  source : Exchanger
  safetyMargin : Float64
  defaultTokenLifetime : Duration
  dispatch : Event → World → World

/-- The nominal lifetime `Token` determines for a fetched token (oauth.go lines
185-190): `time.Second * time.Duration(tok.ExpiresIn)`, a 64 bit product, when
`tok.ExpiresIn > 0`, and `defaultTokenLifetime` otherwise. -/
def safetyMarginTokenSource.nominalLifetime (s : safetyMarginTokenSource)
    (tok : oauth2.Token) : Duration :=
  if tok.ExpiresIn > 0 then wrapInt64 (1000000000 * tok.ExpiresIn)
  else s.defaultTokenLifetime

/-- Go `safetyMarginTokenSource.Token` (oauth.go lines 160-205). -/
def safetyMarginTokenSource.Token (s : safetyMarginTokenSource) (w : World) : TokenResult :=
  let evnt : events.FetchEvent := { At := (timeNow w).1 }
  let w1 := (timeNow w).2
  let r := s.source w1.exchanges w1.heap
  let w2 : World := { w1 with exchanges := w1.exchanges + 1, heap := r.2 }
  match r.1 with
  | .error err =>
    ⟨.error err, s.dispatch (.fetch { evnt with Err := some err }) w2⟩
  | .ok tok =>
    let evnt := { evnt with Duration := (timeSince evnt.At w2).1 }
    let w3 := (timeSince evnt.At w2).2
    if w3.lastToken = some tok ∧ w3.lastAdjusted = true then
      ⟨.ok tok, s.dispatch (.fetch { evnt with Expiration := (w3.heap tok).Expiry }) w3⟩
    else
      let issuedAt := (timeNow w3).1
      let w4 := (timeNow w3).2
      let lifetime : Duration := s.nominalLifetime (w4.heap tok)
      let evnt :=
        if lifetime > 0 then { evnt with OriginalExpiration := issuedAt + lifetime } else evnt
      let newExpiry := issuedAt + mulToDuration lifetime s.safetyMargin
      let adjusted : oauth2.Token := { w4.heap tok with Expiry := newExpiry }
      let w5 : World :=
        if lifetime > 0 then { w4 with heap := Function.update w4.heap tok adjusted } else w4
      let w6 : World := { w5 with lastToken := some tok, lastAdjusted := true }
      ⟨.ok tok, s.dispatch (.fetch { evnt with Expiration := (w6.heap tok).Expiry }) w6⟩

/-- Unicode simple case folding of the characters that fold to an ASCII
letter: the upper case ASCII letters, the long s (U+017F) and the Kelvin sign
(U+212A). -/
def foldChar (c : Char) : Char :=
  if c.toNat = 0x017F then 's'
  else if c.toNat = 0x212A then 'k'
  else c.toLower

/-- Go `strings.EqualFold(s, t)` for a `t` of lower case ASCII letters. -/
def equalFold (s t : String) : Bool :=
  s.toList.map foldChar == t.toList

/-- Go `oauth2.Token.Type`. -/
def tokenType (t : oauth2.Token) : String :=
  if equalFold t.TokenType "bearer" then "Bearer"
  else if equalFold t.TokenType "mac" then "MAC"
  else if equalFold t.TokenType "basic" then "Basic"
  else if t.TokenType != "" then t.TokenType
  else "Bearer"

/-- Go `oauth2.Token.SetAuthHeader`. -/
def SetAuthHeader (t : oauth2.Token) (r : Request) : Request :=
  { Header := Header.Set r.Header "Authorization" (tokenType t ++ " " ++ t.AccessToken) }

/-- Go `oauth.OAuth`; `ts` is the `oauth2.TokenSource` it holds. -/
structure OAuth where
  ts : World → TokenResult
  dispatch : Event → World → World
  priority : Int

/-- Go `oauth.OAuth.Priority`. -/
def OAuth.Priority (o : OAuth) : Int :=
  o.priority

/-- Go `clientcredentials.Config`. -/
structure clientcredentialsConfig where
  ClientID : String
  ClientSecret : String
  TokenURL : String
  Scopes : List String
  EndpointParams : List (String × List String)
  AuthStyle : AuthStyle

/-- The two functions of `golang.org/x/oauth2` that `oauth.New` calls. -/
structure Oauth2 where
  /-- `clientcredentials.Config.TokenSource(context.Background())` -/
  TokenSource : clientcredentialsConfig → Exchanger
  /-- `oauth2.ReuseTokenSource(nil, src)` -/
  ReuseTokenSource : (World → TokenResult) → (World → TokenResult)

/-- Go `oauth.New` (oauth.go lines 79-125). -/
def New (lib : Oauth2) (config : Config) (dispatch : Option (Event → World → World)) :
    Except GoError OAuth :=
  match styleMap config.AuthStyle with
  | none => .error (.leaf ("invalid AuthStyle: " ++ config.AuthStyle))
  | some style =>
    if config.ExpirationSafetyMargin.ltZero || config.ExpirationSafetyMargin.gtOne then
      .error (.leaf "ExpirationSafetyMargin must be between 0 and 1")
    else
      let priority := if config.Priority = 0 then 1000 else config.Priority
      let cfg : clientcredentialsConfig :=
        { ClientID := config.ClientID, ClientSecret := config.ClientSecret,
          TokenURL := config.TokenURL, Scopes := config.Scopes,
          EndpointParams := config.EndpointParams, AuthStyle := style }
      let baseTS := lib.TokenSource cfg
      let dispatch := match dispatch with
        | none => fun _ w => w
        | some f => f
      let safeTS : safetyMarginTokenSource :=
        { source := baseTS, safetyMargin := config.ExpirationSafetyMargin,
          defaultTokenLifetime := config.DefaultTokenDuration, dispatch := dispatch }
      let reuseTS := lib.ReuseTokenSource safeTS.Token
      .ok { ts := reuseTS, dispatch := dispatch, priority := priority }

/-- Go `oauth.OAuth.Decorate` (oauth.go lines 128-146). -/
def OAuth.Decorate (o : OAuth) (req : Request) (w : World) :
    Option GoError × Request × World :=
  let evnt : events.DecorateEvent := { At := (timeNow w).1, Type_ := OAUTH2_TYPE }
  let r := o.ts (timeNow w).2
  let evnt := { evnt with Duration := (timeSince evnt.At r.world).1 }
  let w2 := (timeSince evnt.At r.world).2
  match r.res with
  | .error err =>
    (some err, req, o.dispatch (.decorate { evnt with Err := some err }) w2)
  | .ok token =>
    let evnt := { evnt with Expiration := (w2.heap token).Expiry }
    (none, SetAuthHeader (w2.heap token) req, o.dispatch (.decorate evnt) w2)

end oauth

namespace vouch

/-- Go `decorator` interface of auth.go: a value with a `Decorate` and a
`Priority` method.  `Decorate` may change the request and the world. -/
structure decorator where
  Decorate : Request → World → Option GoError × Request × World
  Priority : Int

/-- State of the `for _, decorator := range a.decorators` loop of
`Vouch.Decorate` when it is left.  `invoked` is a ghost record of the chain
positions whose `Decorate` was called, in call order. -/
structure LoopResult where
  succeeded : Bool
  errs : List (Option GoError)
  req : Request
  world : World
  invoked : List Nat

/-- The loop of `Vouch.Decorate` (auth.go lines 99-105) over the remaining
decorators, the first of which stands at chain position `i`. -/
def decorateLoop : List decorator → Nat → List (Option GoError) → Request →
    World → List Nat → LoopResult
  | [], _, errs, req, w, tr => ⟨false, errs, req, w, tr⟩
  | d :: ds, i, errs, req, w, tr =>
    match d.Decorate req w with
    | (none, req1, w1) => ⟨true, errs, req1, w1, tr ++ [i]⟩
    | (some e, req1, w1) =>
      decorateLoop ds (i + 1) (errs ++ [some e]) req1 w1 (tr ++ [i])

/-- Go `vouch.Config`. -/
structure Config where
  Basic : basic.Config := {}
  OAuth : oauth.Config := {}

/-- Go `Vouch`.  A nil `oauth` or `basic` is `none`.  The two listener
collections, which are mutated through the pointer to the `Vouch`, are the
fields `fetchListeners` and `decorateListeners` of `World`. -/
structure Vouch where
  oauth : Option oauth.OAuth := none
  basic : Option basic.Basic := none
  decorators : List decorator := []

/-- Go `FetchEventListener.OnFetchEvent`, called for the registration `r`. -/
def OnFetchEvent (event : events.FetchEvent) (r : Nat × Nat) (w : World) : World :=
  { w with delivered := w.delivered ++ [.onFetch r.1 r.2 event] }

/-- Go `DecorateEventListener.OnDecorateEvent`, called for the registration `r`. -/
def OnDecorateEvent (event : events.DecorateEvent) (r : Nat × Nat) (w : World) : World :=
  { w with delivered := w.delivered ++ [.onDecorate r.1 r.2 event] }

/-- Go `Vouch.dispatch` (auth.go lines 116-127): the event is handed to the
listeners of its type.  The event is also entered in the ghost log
`World.dispatched`. -/
def Vouch.dispatch (_a : Vouch) (event : Event) (w : World) : World :=
  match event with
  | .fetch e =>
    w.fetchListeners.Visit (OnFetchEvent e) { w with dispatched := w.dispatched ++ [event] }
  | .decorate e =>
    w.decorateListeners.Visit (OnDecorateEvent e)
      { w with dispatched := w.dispatched ++ [event] }

/-- Go `Vouch.AddFetchEventListener`: the cancel function and the changed world. -/
def Vouch.AddFetchEventListener (_a : Vouch) (listener : Nat) (w : World) :
    (World → World) × World :=
  (fun w1 => { w1 with fetchListeners := w1.fetchListeners.cancel (w.fetchListeners.Add listener).1 },
    { w with fetchListeners := (w.fetchListeners.Add listener).2 })

/-- Go `Vouch.AddDecorateEventListener`: the cancel function and the changed
world. -/
def Vouch.AddDecorateEventListener (_a : Vouch) (listener : Nat) (w : World) :
    (World → World) × World :=
  (fun w1 =>
      { w1 with decorateListeners :=
                  w1.decorateListeners.cancel (w.decorateListeners.Add listener).1 },
    { w with decorateListeners := (w.decorateListeners.Add listener).2 })

/-- What a call of `Vouch.Decorate` leaves behind. -/
structure DecorateResult where
  err : Option GoError
  req : Request
  world : World
  invoked : List Nat

/-- Go `Vouch.Decorate` (auth.go lines 92-112). -/
def Vouch.Decorate (a : Vouch) (req : Request) (w : World) : DecorateResult :=
  let evnt : events.DecorateEvent := { At := (timeNow w).1, Type_ := "none" }
  let r := decorateLoop a.decorators 0 [] req (timeNow w).2 []
  if r.succeeded then
    ⟨none, r.req, r.world, r.invoked⟩
  else
    let err := errorsJoin r.errs
    let evnt := { evnt with Duration := (timeSince evnt.At r.world).1, Err := err }
    ⟨err, r.req, a.dispatch (.decorate evnt) (timeSince evnt.At r.world).2, r.invoked⟩

/-- The errors of all decorators of the chain, each called after the ones
before it, in chain order. -/
def outcomes : List decorator → Request → World → List (Option GoError)
  | [], _, _ => []
  | d :: ds, req, w =>
    (d.Decorate req w).1 :: outcomes ds (d.Decorate req w).2.1 (d.Decorate req w).2.2


/-- The `decorator` interface value made from a `*basic.Basic`. -/
def ofBasic (b : basic.Basic) : decorator :=
  ⟨b.Decorate, b.Priority⟩

/-- The `decorator` interface value made from an `*oauth.OAuth`. -/
def ofOAuth (o : oauth.OAuth) : decorator :=
  ⟨o.Decorate, o.Priority⟩

/-- The inner loop of the insertion sort that Go `sort.Slice` runs on slices
of fewer than 13 elements: `x` moves toward the front while `less x y` holds
for the element `y` before it.  The elements before `x` are given nearest
first, and so is the result. -/
def insertBack {α : Type} (less : α → α → Bool) (x : α) : List α → List α
  | [] => [x]
  | y :: ys => if less x y then y :: insertBack less x ys else x :: y :: ys

/-- The outer loop of that insertion sort: the elements already placed are
held nearest first, the remaining ones in slice order. -/
def insertionSortLoop {α : Type} (less : α → α → Bool) : List α → List α → List α
  | placed, [] => placed.reverse
  | placed, x :: xs => insertionSortLoop less (insertBack less x placed) xs

/-- Go `sort.Slice(s, less)`, exact for slices of at most 12 elements. -/
def sortSlice {α : Type} (less : α → α → Bool) (s : List α) : List α :=
  insertionSortLoop less [] s

/-- Go `vouch.Option`: `apply` returns an error and the changed `Vouch`. -/
abbrev Option_ := Vouch → Option GoError × Vouch

/-- Go `handleBasic`. -/
def handleBasic (b : basic.Config) : Option_ :=
  fun a => (none, { a with basic := basic.New b (some a.dispatch) })

/-- Go `handleOAuth`. -/
def handleOAuth (lib : oauth.Oauth2) (o : oauth.Config) : Option_ :=
  fun a =>
    match oauth.New lib o (some a.dispatch) with
    | .error err => (some err, { a with oauth := none })
    | .ok v => (none, { a with oauth := some v })

/-- Go `setupDecorators`. -/
def setupDecorators : Option_ :=
  fun a =>
    let ds := match a.basic with
      | some b => a.decorators ++ [ofBasic b]
      | none => a.decorators
    let ds := match a.oauth with
      | some o => ds ++ [ofOAuth o]
      | none => ds
    let sorted := sortSlice (fun x y => decide (x.Priority > y.Priority)) ds
    (none, { a with decorators := sorted })

/-- The loop of Go `vouch.New` over all options. -/
def applyAll : List Option_ → Vouch → Except GoError Vouch
  | [], a => .ok a
  | opt :: rest, a =>
    match opt a with
    | (some err, _) => .error err
    | (none, a1) => applyAll rest a1

/-- Go `vouch.New`. -/
def New (lib : oauth.Oauth2) (cfg : Config) (opts : List Option_) : Except GoError Vouch :=
  let defaults := [handleBasic cfg.Basic, handleOAuth lib cfg.OAuth]
  let finalize := [setupDecorators]
  applyAll ((defaults ++ opts) ++ finalize) {}

end vouch

/-! ## Sample values -/

/-- A world at rest: the clock reads `1000 + 10 n` nanoseconds at its reading
number `n`, nothing has been dispatched, fetched or remembered. -/
def World.initial : World :=
  { clock := fun n => 1000 + 10 * n, ticks := 0, dispatched := [],
    heap := fun _ => {}, exchanges := 0, lastToken := none, lastAdjusted := false }

namespace vouch

/-- Go `mockDecorator` of auth_test.go: `Decorate` calls the given function,
which sees the request only, and `Priority` is 0. -/
def mockDecorator (decorateFunc : Request → Option GoError) : decorator :=
  ⟨fun req w => (decorateFunc req, req, w), 0⟩

end vouch

/-- An `oauth2` library whose exchanger always fails and whose reusing token
source hands every call on to the source it wraps. -/
def oauth.Oauth2.failing : oauth.Oauth2 :=
  { TokenSource := fun _ _ heap => (.error (.leaf "token endpoint unreachable"), heap),
    ReuseTokenSource := fun src => src }

/-- The first configuration of Go `TestVouch_New`: Basic and OAuth both set. -/
def vouch.Config.both : vouch.Config :=
  { Basic := { Username := "test-user", Password := "test-pass" },
    OAuth := { ClientID := "test-client", ClientSecret := "test-secret",
               TokenURL := "https://example.com/token" } }

/-- An exchanger that returns, on every call, the token object at address 0
after storing `t` there, as a token endpoint answering with `t` does. -/
def oauth.Exchanger.returning (t : oauth2.Token) : oauth.Exchanger :=
  fun _ heap => (.ok 0, Function.update heap 0 t)

/-! ## Reading base64 -/

/-- The six bit value of a character of the base64 alphabet (RFC 4648, table
1), `none` for any other character. -/
def base64Value (c : Char) : Option Nat :=
  if base64Alphabet.indexOf c < 64 then some (base64Alphabet.indexOf c) else none

/-- Decoding of padded standard base64 (RFC 4648, section 4): four characters
give three bytes, and a final group ending in `=` or `==` gives two bytes or
one. -/
def base64Decode : List Char → Option (List Nat)
  | [] => some []
  | a :: b :: c :: d :: rest =>
    match base64Value a, base64Value b with
    | some x, some y =>
      if c = '=' ∧ d = '=' ∧ rest.isEmpty then some [x * 4 + y / 16]
      else
        match base64Value c with
        | some z =>
          if d = '=' ∧ rest.isEmpty then some [x * 4 + y / 16, y % 16 * 16 + z / 4]
          else
            match base64Value d, base64Decode rest with
            | some t, some r =>
              some ((x * 4 + y / 16) :: (y % 16 * 16 + z / 4) :: (z % 4 * 64 + t) :: r)
            | _, _ => none
        | none => none
    | _, _ => none
  | _ => none

/-! ## Observations on a run -/

namespace vouch

/-- The request and world left by the calls that the loop of `Vouch.Decorate`
makes: the decorators are called in chain order, each after the ones before it,
up to and including the first that succeeds. -/
def afterCalls : List decorator → Request → World → Request × World
  | [], req, w => (req, w)
  | d :: ds, req, w =>
    match d.Decorate req w with
    | (none, req1, w1) => (req1, w1)
    | (some _, req1, w1) => afterCalls ds req1 w1

/-- The request and world after each of the decorators has been called once,
one after the other in list order, whatever each of them returns. -/
def callAll : List decorator → Request → World → Request × World
  | [], req, w => (req, w)
  | d :: ds, req, w => callAll ds (d.Decorate req w).2.1 (d.Decorate req w).2.2

/-- A decorator like Go `mockDecorator` that leaves a trace of its call: it
returns `err` and sets the header `name` of the request. -/
def markingDecorator (name : String) (err : Option GoError) : decorator :=
  ⟨fun req w => (err, ⟨Header.Set req.Header name "called"⟩, w), 0⟩

/-- Whether some decorator of the chain succeeds. -/
def anySucceeds (ds : List decorator) (req : Request) (w : World) : Bool :=
  (outcomes ds req w).any Option.isNone

end vouch

/-- The `DecorateEvent`s among the events handed to `dispatch`, oldest first. -/
def decorateEvents (l : List Event) : List events.DecorateEvent :=
  l.filterMap fun
    | .decorate e => some e
    | .fetch _ => none

/-- How many calls of `OnFetchEvent` were made for the registration `reg`. -/
def fetchCalls (reg : Nat) (l : List Delivery) : Nat :=
  (l.filter fun
    | .onFetch r _ _ => r == reg
    | .onDecorate _ _ _ => false).length

/-- How many calls of `OnDecorateEvent` were made for the registration `reg`. -/
def decorateCalls (reg : Nat) (l : List Delivery) : Nat :=
  (l.filter fun
    | .onDecorate r _ _ => r == reg
    | .onFetch _ _ _ => false).length

/-- The numbers of the live registrations of a collection are below the number
the next registration gets, as they are in every collection that started out
empty. -/
def Eventor.wellFormed (e : Eventor) : Bool :=
  e.regs.all fun r => r.1 < e.next

/-- The calls of `OnDecorateEvent` among the calls made on listeners, oldest
first: the registration, the listener and the event of each. -/
def decorateDeliveries (l : List Delivery) : List (Nat × Nat × events.DecorateEvent) :=
  l.filterMap fun
    | .onDecorate reg listener e => some (reg, listener, e)
    | .onFetch _ _ _ => none

/-- The calls that publishing each of the events once to every registration
of the collection makes, event by event and in registration order within one
event. -/
def published (e : Eventor) (evs : List events.DecorateEvent) :
    List (Nat × Nat × events.DecorateEvent) :=
  evs.flatMap fun ev => e.regs.map fun r => (r.1, r.2, ev)

/-- The part of the world that concerns `DecorateEvent`s: those handed to
`dispatch`, the decorate listeners, and the calls made on them. -/
def decorateView (w : World) :
    List events.DecorateEvent × Eventor × List (Nat × Nat × events.DecorateEvent) :=
  (decorateEvents w.dispatched, w.decorateListeners, decorateDeliveries w.delivered)

/-- What is assumed of `oauth2.ReuseTokenSource`: the token source it returns
dispatches no `DecorateEvent` and touches neither the decorate listeners nor
the record of their calls, unless the source it wraps does. -/
def oauth.Oauth2.quiet (lib : oauth.Oauth2) : Prop :=
  ∀ src : World → oauth.TokenResult,
    (∀ w, decorateView (src w).world = decorateView w) →
    ∀ w, decorateView (lib.ReuseTokenSource src w).world = decorateView w

/-- A configuration that sets the OAuth strategy only. -/
def vouch.Config.oauthOnly : vouch.Config :=
  { OAuth := { ClientID := "test-client", ClientSecret := "test-secret",
               TokenURL := "https://example.com/token" } }

/-! ## What `dispatch` leaves untouched -/

theorem Eventor.Visit_frame {α : Type} (proj : World → α) (f : Nat × Nat → World → World)
    (h : ∀ r w, proj (f r w) = proj w) (e : Eventor) (w : World) :
    proj (e.Visit f w) = proj w := by
  unfold Eventor.Visit
  generalize e.regs = rs
  induction rs generalizing w with
  | nil => rfl
  | cons r rs ih => simp only [List.foldl_cons]; rw [ih, h]

namespace vouch

@[simp] theorem Vouch.dispatch_dispatched (a : Vouch) (event : Event) (w : World) :
    (a.dispatch event w).dispatched = w.dispatched ++ [event] := by
  cases event with
  | fetch e =>
    exact Eventor.Visit_frame (fun w => w.dispatched) (OnFetchEvent e) (fun _ _ => rfl) _ _
  | decorate e =>
    exact Eventor.Visit_frame (fun w => w.dispatched) (OnDecorateEvent e) (fun _ _ => rfl) _ _

@[simp] theorem Vouch.dispatch_clock (a : Vouch) (event : Event) (w : World) :
    (a.dispatch event w).clock = w.clock := by
  cases event with
  | fetch e =>
    exact Eventor.Visit_frame (fun w => w.clock) (OnFetchEvent e) (fun _ _ => rfl) _ _
  | decorate e =>
    exact Eventor.Visit_frame (fun w => w.clock) (OnDecorateEvent e) (fun _ _ => rfl) _ _

@[simp] theorem Vouch.dispatch_ticks (a : Vouch) (event : Event) (w : World) :
    (a.dispatch event w).ticks = w.ticks := by
  cases event with
  | fetch e =>
    exact Eventor.Visit_frame (fun w => w.ticks) (OnFetchEvent e) (fun _ _ => rfl) _ _
  | decorate e =>
    exact Eventor.Visit_frame (fun w => w.ticks) (OnDecorateEvent e) (fun _ _ => rfl) _ _

@[simp] theorem Vouch.dispatch_heap (a : Vouch) (event : Event) (w : World) :
    (a.dispatch event w).heap = w.heap := by
  cases event with
  | fetch e =>
    exact Eventor.Visit_frame (fun w => w.heap) (OnFetchEvent e) (fun _ _ => rfl) _ _
  | decorate e =>
    exact Eventor.Visit_frame (fun w => w.heap) (OnDecorateEvent e) (fun _ _ => rfl) _ _

@[simp] theorem Vouch.dispatch_exchanges (a : Vouch) (event : Event) (w : World) :
    (a.dispatch event w).exchanges = w.exchanges := by
  cases event with
  | fetch e =>
    exact Eventor.Visit_frame (fun w => w.exchanges) (OnFetchEvent e) (fun _ _ => rfl) _ _
  | decorate e =>
    exact Eventor.Visit_frame (fun w => w.exchanges) (OnDecorateEvent e) (fun _ _ => rfl) _ _

@[simp] theorem Vouch.dispatch_lastToken (a : Vouch) (event : Event) (w : World) :
    (a.dispatch event w).lastToken = w.lastToken := by
  cases event with
  | fetch e =>
    exact Eventor.Visit_frame (fun w => w.lastToken) (OnFetchEvent e) (fun _ _ => rfl) _ _
  | decorate e =>
    exact Eventor.Visit_frame (fun w => w.lastToken) (OnDecorateEvent e) (fun _ _ => rfl) _ _

@[simp] theorem Vouch.dispatch_lastAdjusted (a : Vouch) (event : Event) (w : World) :
    (a.dispatch event w).lastAdjusted = w.lastAdjusted := by
  cases event with
  | fetch e =>
    exact Eventor.Visit_frame (fun w => w.lastAdjusted) (OnFetchEvent e) (fun _ _ => rfl) _ _
  | decorate e =>
    exact Eventor.Visit_frame (fun w => w.lastAdjusted) (OnDecorateEvent e) (fun _ _ => rfl) _ _

@[simp] theorem Vouch.dispatch_fetchListeners (a : Vouch) (event : Event) (w : World) :
    (a.dispatch event w).fetchListeners = w.fetchListeners := by
  cases event with
  | fetch e =>
    exact Eventor.Visit_frame (fun w => w.fetchListeners) (OnFetchEvent e) (fun _ _ => rfl) _ _
  | decorate e =>
    exact Eventor.Visit_frame (fun w => w.fetchListeners) (OnDecorateEvent e) (fun _ _ => rfl) _ _

@[simp] theorem Vouch.dispatch_decorateListeners (a : Vouch) (event : Event) (w : World) :
    (a.dispatch event w).decorateListeners = w.decorateListeners := by
  cases event with
  | fetch e =>
    exact Eventor.Visit_frame (fun w => w.decorateListeners) (OnFetchEvent e) (fun _ _ => rfl) _ _
  | decorate e =>
    exact Eventor.Visit_frame (fun w => w.decorateListeners) (OnDecorateEvent e) (fun _ _ => rfl) _ _

end vouch

/-! ## The decorator chain -/

mutual
theorem GoError.beq_self : ∀ e : GoError, GoError.beq e e = true
  | .leaf m => by simp [GoError.beq]
  | .join es => by simp [GoError.beq, GoError.beqList_self es]
theorem GoError.beqList_self : ∀ es : List GoError, GoError.beqList es es = true
  | [] => by simp [GoError.beqList]
  | e :: es => by simp [GoError.beqList, GoError.beq_self e, GoError.beqList_self es]
end

theorem errorsIs_self (e : GoError) : errorsIs e e = true := by
  cases e <;> simp [errorsIs, GoError.beq_self]

theorem errorsIsAny_of_mem (e : GoError) :
    ∀ es : List GoError, e ∈ es → errorsIsAny e es = true
  | [], h => by simp at h
  | x :: xs, h => by
    rcases List.mem_cons.1 h with rfl | h
    · simp [errorsIsAny, errorsIs_self]
    · simp [errorsIsAny, errorsIsAny_of_mem e xs h]

theorem errorsIs_join_of_mem (e : GoError) (es : List GoError) (h : e ∈ es) :
    errorsIs e (.join es) = true := by
  simp [errorsIs, errorsIsAny_of_mem e es h]

namespace vouch

theorem outcomes_length (ds : List decorator) :
    ∀ (req : Request) (w : World), (outcomes ds req w).length = ds.length := by
  induction ds with
  | nil => intro req w; rfl
  | cons d ds ih => intro req w; simp [outcomes, ih]

theorem decorateLoop_success (ds : List decorator) :
    ∀ (i : Nat) (errs : List (Option GoError)) (req : Request) (w : World) (tr : List Nat),
      none ∈ outcomes ds req w →
      ∃ k, k < ds.length ∧ (outcomes ds req w).get? k = some none ∧
        (∀ j, j < k → (outcomes ds req w).get? j ≠ some none) ∧
        (decorateLoop ds i errs req w tr).succeeded = true ∧
        (decorateLoop ds i errs req w tr).invoked = tr ++ List.range' i (k + 1) := by
  induction ds with
  | nil => intro i errs req w tr h; simp [outcomes] at h
  | cons d ds ih =>
    intro i errs req w tr h
    rcases hd : d.Decorate req w with ⟨o, req1, w1⟩
    cases o with
    | none =>
      refine ⟨0, by simp, by simp [outcomes, hd], by intro j hj; omega, ?_, ?_⟩
      · simp [decorateLoop, hd]
      · simp [decorateLoop, hd, List.range']
    | some e =>
      have h1 : none ∈ outcomes ds req1 w1 := by
        simpa [outcomes, hd] using h
      obtain ⟨k, hk, hget, hmin, hs, hi⟩ := ih (i + 1) (errs ++ [some e]) req1 w1 (tr ++ [i]) h1
      refine ⟨k + 1, by simpa using hk, by simpa [outcomes, hd] using hget, ?_, ?_, ?_⟩
      · intro j hj
        cases j with
        | zero => simp [outcomes, hd]
        | succ j => simpa [outcomes, hd] using hmin j (by omega)
      · simpa [decorateLoop, hd] using hs
      · simp only [decorateLoop, hd, hi]
        simp [List.range']

theorem decorateLoop_failure (ds : List decorator) :
    ∀ (i : Nat) (errs : List (Option GoError)) (req : Request) (w : World) (tr : List Nat),
      none ∉ outcomes ds req w →
      (decorateLoop ds i errs req w tr).succeeded = false ∧
        (decorateLoop ds i errs req w tr).errs = errs ++ outcomes ds req w ∧
        (decorateLoop ds i errs req w tr).invoked = tr ++ List.range' i ds.length := by
  induction ds with
  | nil => intro i errs req w tr _; simp [decorateLoop, outcomes]
  | cons d ds ih =>
    intro i errs req w tr h
    rcases hd : d.Decorate req w with ⟨o, req1, w1⟩
    cases o with
    | none => exact absurd (by simp [outcomes, hd]) h
    | some e =>
      have h1 : none ∉ outcomes ds req1 w1 := by
        intro hm; exact h (by simp [outcomes, hd, hm])
      obtain ⟨hs, he, hi⟩ := ih (i + 1) (errs ++ [some e]) req1 w1 (tr ++ [i]) h1
      refine ⟨by simpa [decorateLoop, hd] using hs, ?_, ?_⟩
      · simp only [decorateLoop, hd, he]; simp [outcomes, hd]
      · simp only [decorateLoop, hd, hi]; simp [List.range']

theorem decorateLoop_afterCalls (ds : List decorator) :
    ∀ (i : Nat) (errs : List (Option GoError)) (req : Request) (w : World) (tr : List Nat),
      ((decorateLoop ds i errs req w tr).req, (decorateLoop ds i errs req w tr).world)
          = afterCalls ds req w ∧
        (decorateLoop ds i errs req w tr).succeeded = anySucceeds ds req w ∧
        (anySucceeds ds req w = false →
          (decorateLoop ds i errs req w tr).errs = errs ++ outcomes ds req w) ∧
        (decorateLoop ds i errs req w tr).invoked.length
          = tr.length + (decorateLoop ds 0 [] req w []).invoked.length := by
  induction ds with
  | nil => intro i errs req w tr; simp [decorateLoop, afterCalls, anySucceeds, outcomes]
  | cons d ds ih =>
    intro i errs req w tr
    rcases hd : d.Decorate req w with ⟨o, req1, w1⟩
    cases o with
    | none => simp [decorateLoop, afterCalls, anySucceeds, outcomes, hd]
    | some e =>
      obtain ⟨h1, h2, h3, h4⟩ := ih (i + 1) (errs ++ [some e]) req1 w1 (tr ++ [i])
      have h5 := (ih 1 [some e] req1 w1 [0]).2.2.2
      refine ⟨?_, ?_, ?_, ?_⟩
      · simpa [decorateLoop, afterCalls, hd] using h1
      · simpa [decorateLoop, anySucceeds, outcomes, hd] using h2
      · intro hany
        have hany1 : anySucceeds ds req1 w1 = false := by
          simpa [anySucceeds, outcomes, hd] using hany
        simp [decorateLoop, outcomes, hd, h3 hany1]
      · simp only [List.length_append, List.length_singleton, List.length_nil] at h4 h5
        simp only [decorateLoop, hd, List.nil_append, Nat.zero_add, h4, h5]
        omega

theorem afterCalls_eq_callAll (ds : List decorator) :
    ∀ (req : Request) (w : World) (k : Nat),
      (outcomes ds req w).get? k = some none →
      (∀ j, j < k → (outcomes ds req w).get? j ≠ some none) →
      afterCalls ds req w = callAll (ds.take (k + 1)) req w := by
  induction ds with
  | nil => intro req w k h; simp [outcomes] at h
  | cons d ds ih =>
    intro req w k hget hmin
    rcases hd : d.Decorate req w with ⟨o, req1, w1⟩
    cases k with
    | zero =>
      have ho : o = none := by simpa [outcomes, hd] using hget
      subst ho
      simp [afterCalls, callAll, hd]
    | succ k =>
      cases o with
      | none => exact absurd (by simp [outcomes, hd]) (hmin 0 (Nat.succ_pos k))
      | some e =>
        have hget1 : (outcomes ds req1 w1).get? k = some none := by
          simpa [outcomes, hd] using hget
        have hmin1 : ∀ j, j < k → (outcomes ds req1 w1).get? j ≠ some none := by
          intro j hj
          have := hmin (j + 1) (Nat.succ_lt_succ hj)
          simpa [outcomes, hd] using this
        simp only [afterCalls, callAll, hd, List.take_succ_cons]
        exact ih req1 w1 k hget1 hmin1

end vouch

namespace vouch

/-- C1: if at least one decorator of the chain succeeds, `Vouch.Decorate`
returns nil, and the decorators it has called are exactly those at the chain
positions `0, 1, ..., k`, each once and in this order, where `k` is the
position of the first succeeding decorator: no decorator after it is called.
The request and the world it leaves are those left by calling these `k + 1`
decorators one after the other, and nothing else has touched them. -/
theorem Vouch.Decorate_first_success (a : Vouch) (req : Request) (w : World)
    (h : none ∈ outcomes a.decorators req (timeNow w).2) :
    (a.Decorate req w).err = none ∧
      ∃ k, k < a.decorators.length ∧
        (outcomes a.decorators req (timeNow w).2).get? k = some none ∧
        (∀ j, j < k → (outcomes a.decorators req (timeNow w).2).get? j ≠ some none) ∧
        (a.Decorate req w).invoked = List.range (k + 1) ∧
        ((a.Decorate req w).req, (a.Decorate req w).world)
          = callAll (a.decorators.take (k + 1)) req (timeNow w).2 := by
  obtain ⟨k, hk, hget, hmin, hs, hi⟩ :=
    decorateLoop_success a.decorators 0 [] req (timeNow w).2 [] h
  have hafter := (decorateLoop_afterCalls a.decorators 0 [] req (timeNow w).2 []).1
  rw [afterCalls_eq_callAll a.decorators req (timeNow w).2 k hget hmin] at hafter
  refine ⟨by simp [Vouch.Decorate, hs], k, hk, hget, hmin, ?_, ?_⟩
  · simp [Vouch.Decorate, hs, hi, List.range_eq_range']
  · rw [← hafter]
    simp [Vouch.Decorate, hs]

theorem Vouch.Decorate_first_success_witness :
    none ∈ outcomes
        (Vouch.mk none none
          [markingDecorator "First" (some (.leaf "failed")), markingDecorator "Second" none,
            markingDecorator "Late" (some (.leaf "late"))]).decorators
        ⟨[]⟩ (timeNow World.initial).2 ∧
      ((Vouch.mk none none
          [markingDecorator "First" (some (.leaf "failed")), markingDecorator "Second" none,
            markingDecorator "Late" (some (.leaf "late"))]).Decorate ⟨[]⟩ World.initial).invoked
        = [0, 1] ∧
      ((Vouch.mk none none
          [markingDecorator "First" (some (.leaf "failed")), markingDecorator "Second" none,
            markingDecorator "Late" (some (.leaf "late"))]).Decorate ⟨[]⟩ World.initial).req
        = ⟨[("Second", ["called"]), ("First", ["called"])]⟩ ∧
      ((Vouch.mk none none
          [markingDecorator "First" (some (.leaf "failed")), markingDecorator "Second" none,
            markingDecorator "Late" (some (.leaf "late"))]).Decorate ⟨[]⟩
              World.initial).world.dispatched = [] := by
  have h : none ∈ outcomes
        (Vouch.mk none none
          [markingDecorator "First" (some (.leaf "failed")), markingDecorator "Second" none,
            markingDecorator "Late" (some (.leaf "late"))]).decorators
        ⟨[]⟩ (timeNow World.initial).2 := by
    simp [outcomes, markingDecorator]
  refine ⟨h, ?_⟩
  obtain ⟨_, k, _, hget, hmin, hi, hrw⟩ := Vouch.Decorate_first_success _ ⟨[]⟩ World.initial h
  have hk : k = 1 := by
    rcases Nat.lt_trichotomy k 1 with hlt | heq | hgt
    · have : k = 0 := by omega
      subst this
      simp [outcomes, markingDecorator] at hget
    · exact heq
    · exact absurd (by simp [outcomes, markingDecorator]) (hmin 1 hgt)
  subst hk
  have hreq := congrArg Prod.fst hrw
  have hworld := congrArg (fun p => p.2.dispatched) hrw
  refine ⟨by simpa [List.range, List.range.loop] using hi, ?_, ?_⟩
  · exact hreq.trans (by decide)
  · exact hworld.trans rfl

end vouch

namespace vouch

theorem errorsJoin_map_some (es : List GoError) :
    errorsJoin (es.map some) = match es with
      | [] => none
      | e :: rest => some (.join (e :: rest)) := by
  have h : (es.map some).filterMap id = es := by
    induction es with
    | nil => rfl
    | cons e es ih => simp [List.filterMap_cons, ih]
  unfold errorsJoin
  rw [h]

theorem exists_errors_of_not_mem_none :
    ∀ os : List (Option GoError), none ∉ os → ∃ es : List GoError, os = es.map some
  | [], _ => ⟨[], rfl⟩
  | none :: _, h => absurd (List.mem_cons_self _ _) h
  | some e :: os, h => by
    obtain ⟨es, hes⟩ := exists_errors_of_not_mem_none os (fun hm => h (List.mem_cons_of_mem _ hm))
    exact ⟨e :: es, by simp [hes]⟩

/-- C2: if no decorator of the chain succeeds, `Vouch.Decorate` has called
every decorator once in chain order and returns `errors.Join` of their errors
in chain order: with `es` the list of the decorators' errors in chain order,
the result is nil for the empty chain and otherwise the non-nil error whose
`Unwrap() []error` is `es`, in which `errors.Is` finds each of them.  On the
empty chain `Decorate` returns nil, leaves the request as it was and calls no
decorator. -/
theorem Vouch.Decorate_all_fail (a : Vouch) (req : Request) (w : World)
    (h : none ∉ outcomes a.decorators req (timeNow w).2) :
    (a.Decorate req w).err = errorsJoin (outcomes a.decorators req (timeNow w).2) ∧
      (a.Decorate req w).invoked = List.range a.decorators.length ∧
      (∃ es : List GoError,
          es.map some = outcomes a.decorators req (timeNow w).2 ∧
          es.length = a.decorators.length ∧
          (a.Decorate req w).err
            = (if a.decorators.isEmpty then none else some (.join es)) ∧
          ∀ e ∈ es, errorsIs e (.join es) = true) ∧
      ((Vouch.Decorate { a with decorators := [] } req w).err = none ∧
        (Vouch.Decorate { a with decorators := [] } req w).req = req ∧
        (Vouch.Decorate { a with decorators := [] } req w).invoked = []) := by
  obtain ⟨hs, he, hi⟩ := decorateLoop_failure a.decorators 0 [] req (timeNow w).2 [] h
  have herr : (a.Decorate req w).err = errorsJoin (outcomes a.decorators req (timeNow w).2) := by
    simp [Vouch.Decorate, hs, he]
  refine ⟨herr, by simp [Vouch.Decorate, hs, hi, List.range_eq_range'], ?_, ?_⟩
  · obtain ⟨es, hes⟩ := exists_errors_of_not_mem_none _ h
    have hlen : es.length = a.decorators.length := by
      have := congrArg List.length hes
      simpa [outcomes_length] using this.symm
    refine ⟨es, hes.symm, hlen, ?_, fun e he => errorsIs_join_of_mem e es he⟩
    rw [herr, hes, errorsJoin_map_some]
    cases es with
    | nil =>
      have : a.decorators = [] := List.length_eq_zero.1 (by simpa using hlen.symm)
      simp [this]
    | cons e rest =>
      have : a.decorators ≠ [] := by
        intro hnil; simp [hnil] at hlen
      simp [this]
  · simp [Vouch.Decorate, decorateLoop, errorsJoin]

theorem Vouch.Decorate_all_fail_witness :
    none ∉ outcomes
        (Vouch.mk none none
          [mockDecorator fun _ => some (.leaf "first"),
            mockDecorator fun _ => some (.leaf "second")]).decorators
        ⟨[]⟩ (timeNow World.initial).2 ∧
      ((Vouch.mk none none
          [mockDecorator fun _ => some (.leaf "first"),
            mockDecorator fun _ => some (.leaf "second")]).Decorate ⟨[]⟩ World.initial).err
        = some (.join [.leaf "first", .leaf "second"]) := by
  have h : none ∉ outcomes
        (Vouch.mk none none
          [mockDecorator fun _ => some (.leaf "first"),
            mockDecorator fun _ => some (.leaf "second")]).decorators
        ⟨[]⟩ (timeNow World.initial).2 := by
    simp [outcomes, mockDecorator]
  refine ⟨h, ?_⟩
  rw [(Vouch.Decorate_all_fail _ ⟨[]⟩ World.initial h).1]
  simp [outcomes, mockDecorator, errorsJoin]

end vouch

/-! ## Construction of the chain -/

namespace vouch

theorem insertBack_perm {α : Type} (less : α → α → Bool) (x : α) :
    ∀ l : List α, List.Perm (insertBack less x l) (x :: l)
  | [] => List.Perm.refl _
  | y :: ys => by
    unfold insertBack
    split
    · exact ((insertBack_perm less x ys).cons y).trans (List.Perm.swap x y ys)
    · exact List.Perm.refl _

theorem insertionSortLoop_perm {α : Type} (less : α → α → Bool) :
    ∀ (rest placed : List α), List.Perm (insertionSortLoop less placed rest) (placed ++ rest)
  | [], placed => by simp [insertionSortLoop]
  | x :: xs, placed => by
    unfold insertionSortLoop
    refine (insertionSortLoop_perm less xs (insertBack less x placed)).trans ?_
    refine ((insertBack_perm less x placed).append_right xs).trans ?_
    exact (@List.perm_middle _ x placed xs).symm

theorem sortSlice_perm {α : Type} (less : α → α → Bool) (s : List α) :
    List.Perm (sortSlice less s) s := by
  simpa [sortSlice] using insertionSortLoop_perm less s []

theorem insertBack_ascending {α : Type} (p : α → Int) (x : α) :
    ∀ l : List α, l.Pairwise (fun a b => p a ≤ p b) →
      (insertBack (fun a b => decide (p a > p b)) x l).Pairwise (fun a b => p a ≤ p b)
  | [], _ => by simp [insertBack]
  | y :: ys, h => by
    unfold insertBack
    have hy := List.pairwise_cons.1 h
    by_cases hlt : p x > p y
    · simp only [hlt, decide_True, if_true]
      refine List.pairwise_cons.2 ⟨?_, insertBack_ascending p x ys hy.2⟩
      intro z hz
      rcases List.mem_cons.1 ((insertBack_perm _ x ys).subset hz) with rfl | hz
      · omega
      · exact hy.1 z hz
    · simp only [hlt, decide_False, Bool.false_eq_true, if_false]
      refine List.pairwise_cons.2 ⟨?_, h⟩
      intro z hz
      rcases List.mem_cons.1 hz with rfl | hz
      · omega
      · have := hy.1 z hz
        omega

theorem insertionSortLoop_descending {α : Type} (p : α → Int) :
    ∀ (rest placed : List α), placed.Pairwise (fun a b => p a ≤ p b) →
      (insertionSortLoop (fun a b => decide (p a > p b)) placed rest).Pairwise
        (fun a b => p a ≥ p b)
  | [], placed, h => by
    simpa [insertionSortLoop, List.pairwise_reverse] using h
  | x :: xs, placed, h => by
    unfold insertionSortLoop
    exact insertionSortLoop_descending p xs _ (insertBack_ascending p x placed h)

theorem sortSlice_descending {α : Type} (p : α → Int) (s : List α) :
    (sortSlice (fun a b => decide (p a > p b)) s).Pairwise (fun a b => p a ≥ p b) :=
  insertionSortLoop_descending p s [] List.Pairwise.nil

theorem New_eq (lib : oauth.Oauth2) (cfg : Config) (v : Vouch)
    (h : New lib cfg [] = .ok v) :
    ∃ o, oauth.New lib cfg.OAuth (some (Vouch.dispatch {})) = .ok o ∧
      v.oauth = some o ∧
      v.basic = basic.New cfg.Basic (some (Vouch.dispatch {})) ∧
      v.decorators = sortSlice (fun x y => decide (x.Priority > y.Priority))
        ((v.basic.toList.map ofBasic) ++ [ofOAuth o]) := by
  unfold New at h
  simp only [List.append_nil, List.cons_append, List.nil_append, applyAll, handleBasic,
    handleOAuth] at h
  cases ho : oauth.New lib cfg.OAuth (some (Vouch.dispatch { basic := basic.New cfg.Basic (some (Vouch.dispatch {})) })) with
  | error e => simp [ho] at h
  | ok o =>
    simp only [ho, setupDecorators] at h
    have hv : v = _ := (Except.ok.inj h).symm
    refine ⟨o, ?_, ?_, ?_, ?_⟩
    · simpa [Vouch.dispatch] using ho
    · simp [hv]
    · simp [hv]
    · subst hv
      cases hb : basic.New cfg.Basic (some (Vouch.dispatch {})) <;> simp [hb]

end vouch

namespace vouch

/-- C3: for every configuration accepted by `New`, the chain built by
`setupDecorators` is a permutation of the non-nil strategies and is in
descending priority order (every decorator's priority is at least that of every
later one).  A strategy of priority 1000 comes before one of priority 300 in
whichever order the two were appended. -/
theorem New_decorators_descending (lib : oauth.Oauth2) (cfg : Config) (v : Vouch)
    (h : New lib cfg [] = .ok v) :
    List.Perm v.decorators (v.basic.toList.map ofBasic ++ v.oauth.toList.map ofOAuth) ∧
      v.decorators.Pairwise (fun x y => x.Priority ≥ y.Priority) ∧
      ∀ f g : Request → World → Option GoError × Request × World,
        sortSlice (fun x y => decide (x.Priority > y.Priority))
            [decorator.mk f 300, decorator.mk g 1000]
          = [decorator.mk g 1000, decorator.mk f 300] ∧
        sortSlice (fun x y => decide (x.Priority > y.Priority))
            [decorator.mk g 1000, decorator.mk f 300]
          = [decorator.mk g 1000, decorator.mk f 300] := by
  obtain ⟨o, _, ho, _, hd⟩ := New_eq lib cfg v h
  refine ⟨?_, ?_, ?_⟩
  · rw [hd, ho]
    exact sortSlice_perm _ _
  · rw [hd]
    exact sortSlice_descending (fun d : decorator => d.Priority) _
  · intro f g
    simp [sortSlice, insertionSortLoop, insertBack]

theorem New_decorators_descending_witness :
    ∃ v, New oauth.Oauth2.failing Config.both [] = .ok v ∧
      v.decorators.map (fun d => d.Priority) = [1000, 300] ∧
      v.decorators.Pairwise (fun x y => x.Priority ≥ y.Priority) :=
  ⟨_, rfl, by decide, (New_decorators_descending oauth.Oauth2.failing Config.both _ rfl).2.1⟩

end vouch

namespace vouch

theorem Vouch.Decorate_singleton_invoked (a : Vouch) (d : decorator) (h : a.decorators = [d])
    (req : Request) (w : World) : (a.Decorate req w).invoked = [0] := by
  rcases hd : d.Decorate req (timeNow w).2 with ⟨o, r1, w1⟩
  cases o <;> simp [Vouch.Decorate, h, decorateLoop, hd]

/-- C4 (evaluation of the code): `New` accepts the empty `Config`, whose OAuth
part is not active, and for every library the chain it builds is exactly the
OAuth strategy, which every `Decorate` then calls; with an exchanger that
fails, `Decorate` returns a non-nil error. -/
theorem New_empty_config_chain (lib : oauth.Oauth2) :
    oauth.Config.IsActive ({} : Config).OAuth = false ∧
      ∃ v o, New lib {} [] = .ok v ∧ v.basic = none ∧ v.oauth = some o ∧
        v.decorators = [ofOAuth o] ∧
        (∀ req w, (v.Decorate req w).invoked = [0]) ∧
        ∃ v1, New oauth.Oauth2.failing {} [] = .ok v1 ∧
          (v1.Decorate ⟨[]⟩ World.initial).err
            = some (.join [.leaf "token endpoint unreachable"]) := by
  refine ⟨by decide, _, _, rfl, rfl, rfl, rfl, ?_, _, rfl, ?_⟩
  · intro req w
    exact Vouch.Decorate_singleton_invoked _ _ rfl req w
  · simp [Vouch.Decorate, decorateLoop, ofOAuth, oauth.OAuth.Decorate, oauth.Oauth2.failing,
      oauth.safetyMarginTokenSource.Token, errorsJoin]

end vouch

/-! ## Construction of the strategies -/

namespace oauth

theorem styleMap_eq_none_iff (key : String) :
    styleMap key = none ↔ key ∉ ["", "auto_detect", "in_params", "in_header"] := by
  unfold styleMap
  by_cases h1 : key = ""
  · simp [h1]
  by_cases h2 : key = "auto_detect"
  · simp [h2]
  by_cases h3 : key = "in_params"
  · simp [h3]
  by_cases h4 : key = "in_header"
  · simp [h4]
  simp [h1, h2, h3, h4]

theorem New_isError_iff (lib : Oauth2) (config : Config)
    (dispatch : Option (Event → World → World)) :
    (∃ e, New lib config dispatch = .error e) ↔
      (config.AuthStyle ∉ ["", "auto_detect", "in_params", "in_header"] ∨
        config.ExpirationSafetyMargin.ltZero = true ∨
        config.ExpirationSafetyMargin.gtOne = true) := by
  rw [← styleMap_eq_none_iff]
  unfold New
  cases hs : styleMap config.AuthStyle with
  | none => simp
  | some style =>
    by_cases hm : (config.ExpirationSafetyMargin.ltZero || config.ExpirationSafetyMargin.gtOne) = true
    · simp only [hm, if_true]
      simpa using Bool.or_eq_true _ _ ▸ hm
    · simp only [hm]
      simpa using hm

end oauth

namespace vouch

theorem New_isError_iff_oauth (lib : oauth.Oauth2) (cfg : Config) :
    (∃ e, New lib cfg [] = .error e) ↔
      ∃ e, oauth.New lib cfg.OAuth (some (Vouch.dispatch {})) = .error e := by
  unfold New
  simp only [List.append_nil, List.cons_append, List.nil_append, applyAll, handleBasic,
    handleOAuth]
  cases ho : oauth.New lib cfg.OAuth (some (Vouch.dispatch { basic := basic.New cfg.Basic (some (Vouch.dispatch {})) })) with
  | error e =>
    have ho1 : oauth.New lib cfg.OAuth (some (Vouch.dispatch {})) = .error e := ho
    simp [ho1]
  | ok o =>
    have ho1 : oauth.New lib cfg.OAuth (some (Vouch.dispatch {})) = .ok o := ho
    simp [ho1, setupDecorators]

/-- C7: `oauth.New` returns an error, and with it no instance, exactly when
`AuthStyle` is none of "", "auto_detect", "in_params", "in_header" or
`ExpirationSafetyMargin` is below 0 or above 1, and `vouch.New` without extra
options fails in exactly the same cases.  The margin 1.5 and the style
"invalid" are rejected; the margins 0, 0.8 and 1 are accepted. -/
theorem New_fails_iff (lib : oauth.Oauth2) (config : oauth.Config) (cfg : Config)
    (dispatch : Option (Event → World → World)) :
    ((∃ e, oauth.New lib config dispatch = .error e) ↔
        (config.AuthStyle ∉ ["", "auto_detect", "in_params", "in_header"] ∨
          config.ExpirationSafetyMargin.ltZero = true ∨
          config.ExpirationSafetyMargin.gtOne = true)) ∧
      ((∃ e, New lib cfg [] = .error e) ↔
        (cfg.OAuth.AuthStyle ∉ ["", "auto_detect", "in_params", "in_header"] ∨
          cfg.OAuth.ExpirationSafetyMargin.ltZero = true ∨
          cfg.OAuth.ExpirationSafetyMargin.gtOne = true)) ∧
      (∃ e, oauth.New lib { config with ExpirationSafetyMargin := .fin false 3 (-1) } dispatch
          = .error e) ∧
      (∃ e, oauth.New lib { config with AuthStyle := "invalid" } dispatch = .error e) ∧
      (∃ o, oauth.New lib { ExpirationSafetyMargin := .fin false 0 0 } dispatch = .ok o) ∧
      (∃ o, oauth.New lib { ExpirationSafetyMargin := .fin false 7205759403792794 (-53) }
          dispatch = .ok o) ∧
      (∃ o, oauth.New lib { ExpirationSafetyMargin := .fin false 1 0 } dispatch = .ok o) := by
  refine ⟨oauth.New_isError_iff lib config dispatch, ?_, ?_, ?_, ⟨_, rfl⟩, ⟨_, rfl⟩, ⟨_, rfl⟩⟩
  · rw [New_isError_iff_oauth, oauth.New_isError_iff]
  · exact (oauth.New_isError_iff lib _ dispatch).2 (Or.inr (Or.inr (by
      show Float64.gtOne (.fin false 3 (-1)) = true
      decide)))
  · exact (oauth.New_isError_iff lib _ dispatch).2 (Or.inl (by
      show "invalid" ∉ ["", "auto_detect", "in_params", "in_header"]
      decide))

end vouch

namespace basic

/-- C10: `basic.New` returns nil exactly when `Username` is empty; otherwise it
returns a `Basic` carrying the configured `Username` and `Password`, whose
`Priority()` is the configured `Priority`, or 300 when that is 0.  `oauth.New`
returns an `OAuth` for every configuration with a known `AuthStyle` and a
margin in [0,1], and its `Priority()` is the configured `Priority`, or 1000
when that is 0.  So the zero `oauth.Config` gives priority 1000 and the
configured priority 5 gives 5, and the user `u` with password `p` gives a
`Basic` of priority 300, or 7 when 7 is configured. -/
theorem New_result (config : Config) (dispatch : Option (Event → World → World))
    (lib : oauth.Oauth2) (oconfig : oauth.Config)
    (odispatch : Option (Event → World → World)) :
    (New config dispatch = none ↔ config.Username = "") ∧
      (New config dispatch).map (fun b => (b.username, b.password, b.Priority))
        = (if config.Username = "" then none
           else some (config.Username, config.Password,
             if config.Priority = 0 then 300 else config.Priority)) ∧
      (oauth.New lib oconfig odispatch).toOption.map oauth.OAuth.Priority
        = (if (oauth.styleMap oconfig.AuthStyle).isNone
              || oconfig.ExpirationSafetyMargin.ltZero
              || oconfig.ExpirationSafetyMargin.gtOne then none
           else some (if oconfig.Priority = 0 then 1000 else oconfig.Priority)) ∧
      (oauth.New lib {} odispatch).toOption.map oauth.OAuth.Priority = some 1000 ∧
      (oauth.New lib { Priority := 5 } odispatch).toOption.map oauth.OAuth.Priority = some 5 ∧
      (New { Username := "u", Password := "p" } dispatch).map
          (fun b => (b.username, b.password, b.Priority)) = some ("u", "p", 300) ∧
      (New { Username := "u", Password := "p", Priority := 7 } dispatch).map
          (fun b => (b.username, b.password, b.Priority)) = some ("u", "p", 7) ∧
      New { Password := "p", Priority := 7 } dispatch = none := by
  refine ⟨?_, ?_, ?_, rfl, rfl, rfl, rfl, rfl⟩
  · by_cases h : config.Username = "" <;> simp [New, Config.IsActive, h]
  · by_cases h : config.Username = "" <;> simp [New, Config.IsActive, h, Basic.Priority]
  · unfold oauth.New
    cases hstyle : oauth.styleMap oconfig.AuthStyle with
    | none => rfl
    | some style =>
      simp only [Option.isNone_some, Bool.false_or]
      cases h : (oconfig.ExpirationSafetyMargin.ltZero || oconfig.ExpirationSafetyMargin.gtOne)
      · simp [Except.toOption, oauth.OAuth.Priority]
      · simp [Except.toOption]

end basic

/-! ## Failure of the token exchange -/

namespace oauth

/-- C8: when the exchanger returns an error, `safetyMarginTokenSource.Token`
returns no token and that same error, hands `dispatch` exactly one event, a
`FetchEvent` whose `Err` is that error and whose `Expiration` and
`OriginalExpiration` (and `Duration`) are zero, leaves `lastToken` and
`lastAdjusted` as they were, and has called the exchanger exactly once. -/
theorem safetyMarginTokenSource.Token_exchanger_error (a : vouch.Vouch) (source : Exchanger)
    (margin : Float64) (lifetime : Duration) (w : World) (err : GoError)
    (h : (source w.exchanges w.heap).1 = .error err) :
    ((safetyMarginTokenSource.mk source margin lifetime a.dispatch).Token w).res
        = .error err ∧
      ((safetyMarginTokenSource.mk source margin lifetime a.dispatch).Token w).world.dispatched
        = w.dispatched ++
            [.fetch { At := w.clock w.ticks, Type_ := "", Duration := 0, Expiration := 0,
                      OriginalExpiration := 0, Err := some err }] ∧
      ((safetyMarginTokenSource.mk source margin lifetime a.dispatch).Token w).world.lastToken
        = w.lastToken ∧
      ((safetyMarginTokenSource.mk source margin lifetime a.dispatch).Token w).world.lastAdjusted
        = w.lastAdjusted ∧
      ((safetyMarginTokenSource.mk source margin lifetime a.dispatch).Token w).world.exchanges
        = w.exchanges + 1 := by
  simp [safetyMarginTokenSource.Token, timeNow, h]

theorem safetyMarginTokenSource.Token_exchanger_error_witness :
    ((safetyMarginTokenSource.mk (Oauth2.failing.TokenSource ⟨"", "", "", [], [], .AuthStyleAutoDetect⟩)
        (.fin false 0 0) 0 (vouch.Vouch.dispatch {})).Token World.initial).world.exchanges = 1 :=
  (safetyMarginTokenSource.Token_exchanger_error {} _ (.fin false 0 0) 0 World.initial
    (.leaf "token endpoint unreachable") rfl).2.2.2.2

/-- C9: when the token source fails, `OAuth.Decorate` returns exactly the
token source's error, leaves the request (so every header, Authorization
included) exactly as it was, and hands `dispatch` exactly one event after the
token source has returned: a `DecorateEvent` of `Type` "oauth2" whose `Err` is
that error. -/
theorem OAuth.Decorate_token_error (a : vouch.Vouch) (ts : World → TokenResult) (priority : Int)
    (req : Request) (w : World) (err : GoError)
    (h : (ts (timeNow w).2).res = .error err) :
    ((OAuth.mk ts a.dispatch priority).Decorate req w).1 = some err ∧
      ((OAuth.mk ts a.dispatch priority).Decorate req w).2.1 = req ∧
      ((OAuth.mk ts a.dispatch priority).Decorate req w).2.2.dispatched
        = (ts (timeNow w).2).world.dispatched ++
            [.decorate { At := (timeNow w).1, Type_ := "oauth2",
                         Duration := (timeSince (timeNow w).1 (ts (timeNow w).2).world).1,
                         Expiration := 0, Err := some err }] := by
  simp only [OAuth.Decorate, h]
  simp [timeSince, OAUTH2_TYPE]
  rfl

theorem OAuth.Decorate_token_error_witness :
    ((OAuth.mk
        (safetyMarginTokenSource.mk
          (Oauth2.failing.TokenSource ⟨"", "", "", [], [], .AuthStyleAutoDetect⟩)
          (.fin false 0 0) 0 (vouch.Vouch.dispatch {})).Token
        (vouch.Vouch.dispatch {}) 1000).Decorate ⟨[("Accept", ["*/*"])]⟩ World.initial).2.1
      = ⟨[("Accept", ["*/*"])]⟩ :=
  (OAuth.Decorate_token_error {} _ 1000 ⟨[("Accept", ["*/*"])]⟩ World.initial
    (.leaf "token endpoint unreachable") rfl).2.1

end oauth

/-! ## Rounding to 53 bits -/

theorem shiftOf_spec (P : Nat) :
    ∀ (fuel s0 : Nat), s0 ≤ shiftOf fuel P s0 ∧
      (shiftOf fuel P s0 = s0 ∨ 2 ^ (52 + shiftOf fuel P s0) ≤ P) := by
  intro fuel
  induction fuel with
  | zero => intro s0; simp [shiftOf]
  | succ fuel ih =>
    intro s0
    unfold shiftOf
    by_cases h : P < 2 ^ (53 + s0)
    · simp [h]
    · simp only [h, if_false]
      obtain ⟨h1, h2⟩ := ih (s0 + 1)
      refine ⟨by omega, Or.inr ?_⟩
      rcases h2 with h2 | h2
      · rw [h2]
        have : 52 + (s0 + 1) = 53 + s0 := by omega
        rw [this]
        exact Nat.le_of_not_lt h
      · exact h2

theorem roundAt_le (P T s : Nat) (hPT : P ≤ T) (hdvd : 2 ^ s ∣ T) :
    (if 2 * (P % 2 ^ s) < 2 ^ s then P / 2 ^ s * 2 ^ s
      else if 2 * (P % 2 ^ s) = 2 ^ s then
        (if P / 2 ^ s % 2 = 0 then P / 2 ^ s * 2 ^ s else (P / 2 ^ s + 1) * 2 ^ s)
      else (P / 2 ^ s + 1) * 2 ^ s) ≤ T := by
  have hpos : 0 < 2 ^ s := Nat.two_pow_pos _
  have hdown : P / 2 ^ s * 2 ^ s ≤ T := le_trans (Nat.div_mul_le_self P (2 ^ s)) hPT
  have hup : 0 < P % 2 ^ s → (P / 2 ^ s + 1) * 2 ^ s ≤ T := by
    intro hr
    obtain ⟨t, ht⟩ := hdvd
    have hP : 2 ^ s * (P / 2 ^ s) + P % 2 ^ s = P := Nat.div_add_mod P (2 ^ s)
    have hlt : 2 ^ s * (P / 2 ^ s) < 2 ^ s * t := by
      rw [← ht]; omega
    have hq : P / 2 ^ s < t := Nat.lt_of_mul_lt_mul_left hlt
    calc (P / 2 ^ s + 1) * 2 ^ s ≤ t * 2 ^ s := Nat.mul_le_mul_right _ hq
      _ = T := by rw [ht, Nat.mul_comm]
  split
  · exact hdown
  · split
    · split
      · exact hdown
      · exact hup (by omega)
    · exact hup (by omega)

theorem round53_le (P T : Nat) (hPT : P ≤ T)
    (hdvd : ∀ s, 2 ^ (52 + s) ≤ P → 2 ^ s ∣ T) : round53 P ≤ T := by
  unfold round53
  obtain ⟨_, h2⟩ := shiftOf_spec P P 0
  rcases h2 with h2 | h2
  · rw [h2]
    exact roundAt_le P T 0 hPT (by simp)
  · exact roundAt_le P T _ hPT (hdvd _ h2)

theorem round53_of_lt (P : Nat) (h : P < 2 ^ 53) : round53 P = P := by
  have hs : shiftOf P P 0 = 0 := by
    cases P with
    | zero => rfl
    | succ n =>
      have h0 : n + 1 < 2 ^ (53 + 0) := h
      simp only [shiftOf, h0, if_true]
  unfold round53
  simp [hs, Nat.mod_one]

theorem round53_of_le (P : Nat) (h : P ≤ 2 ^ 53) : round53 P = P := by
  rcases Nat.lt_or_ge P (2 ^ 53) with hlt | hge
  · exact round53_of_lt P hlt
  · have : P = 2 ^ 53 := Nat.le_antisymm h hge
    subst this
    decide

/-- The `float64` product of a positive integer `L ≤ 2^53` with `mant * 2^(-k)`
is at most `L` when `mant ≤ 2^k`. -/
theorem round53_mul_le (L mant k : Nat) (hL : L ≤ 2 ^ 53) (hm : mant ≤ 2 ^ k) :
    round53 (L * mant) ≤ L * 2 ^ k := by
  refine round53_le _ _ (Nat.mul_le_mul_left L hm) ?_
  intro s hs
  have hle : 2 ^ (52 + s) ≤ L * 2 ^ k := le_trans hs (Nat.mul_le_mul_left L hm)
  rcases Nat.lt_or_ge k s with hks | hks
  · -- then `L` is exactly `2^53` and `s = k + 1`
    have h1 : L * 2 ^ k ≤ 2 ^ 53 * 2 ^ k := Nat.mul_le_mul_right _ hL
    have h2 : 2 ^ (52 + s) ≤ 2 ^ (53 + k) := by
      rw [Nat.pow_add 2 53 k]; exact le_trans hle h1
    have h3 : 52 + s ≤ 53 + k := (Nat.pow_le_pow_iff_right (by decide)).1 h2
    have hs1 : s = k + 1 := by omega
    subst hs1
    have h4 : 2 ^ 53 * 2 ^ k ≤ L * 2 ^ k := by
      have : 2 ^ (52 + (k + 1)) = 2 ^ 53 * 2 ^ k := by
        rw [← Nat.pow_add]; congr 1; omega
      rw [← this]; exact hle
    have h5 : 2 ^ 53 ≤ L := Nat.le_of_mul_le_mul_right h4 (Nat.two_pow_pos _)
    have hL' : L = 2 ^ 53 := Nat.le_antisymm hL h5
    subst hL'
    rw [← Nat.pow_add]
    exact Nat.pow_dvd_pow 2 (by omega)
  · exact Dvd.dvd.mul_left (Nat.pow_dvd_pow 2 hks) L

/-! ## Integers that are `float64` values -/

theorem shiftOf_lt (P : Nat) :
    ∀ (fuel s0 : Nat), P < 2 ^ (53 + s0 + fuel) → P < 2 ^ (53 + shiftOf fuel P s0) := by
  intro fuel
  induction fuel with
  | zero => intro s0 h; simpa [shiftOf] using h
  | succ fuel ih =>
    intro s0 h
    unfold shiftOf
    by_cases hlt : P < 2 ^ (53 + s0)
    · simp [hlt]
    · simp only [hlt, if_false]
      apply ih
      have : 53 + (s0 + 1) + fuel = 53 + s0 + (fuel + 1) := by omega
      rw [this]
      exact h

theorem shiftOf_self_lt (P : Nat) : P < 2 ^ (53 + shiftOf P P 0) := by
  apply shiftOf_lt
  calc P < 2 ^ P := Nat.lt_two_pow P
    _ ≤ 2 ^ (53 + 0 + P) := Nat.pow_le_pow_right (by decide) (by omega)

/-- The result of `round53` is `c * 2^s` with `c ≤ 2^53`. -/
theorem round53_form (P : Nat) :
    ∃ c s, c ≤ 2 ^ 53 ∧ round53 P = c * 2 ^ s := by
  have hlt := shiftOf_self_lt P
  have hq : P / 2 ^ shiftOf P P 0 < 2 ^ 53 := by
    rw [Nat.div_lt_iff_lt_mul (Nat.two_pow_pos _), ← Nat.pow_add]
    exact hlt
  unfold round53
  simp only
  split
  · exact ⟨_, _, hq.le, rfl⟩
  · split
    · split
      · exact ⟨_, _, hq.le, rfl⟩
      · exact ⟨_, _, hq, rfl⟩
    · exact ⟨_, _, hq, rfl⟩

/-- An integer `float64` value that is at least `2^(52+s)` is a multiple of
`2^s`. -/
theorem round53_dvd (P s : Nat) (h : 2 ^ (52 + s) ≤ round53 P) : 2 ^ s ∣ round53 P := by
  obtain ⟨c, t, hc, hform⟩ := round53_form P
  rw [hform] at h ⊢
  rcases Nat.lt_or_ge t s with hts | hts
  · have h1 : c * 2 ^ t ≤ 2 ^ 53 * 2 ^ t := Nat.mul_le_mul_right _ hc
    have h2 : 2 ^ (52 + s) ≤ 2 ^ (53 + t) := by
      rw [Nat.pow_add 2 53 t]; exact le_trans h h1
    have h3 : 52 + s ≤ 53 + t := (Nat.pow_le_pow_iff_right (by decide)).1 h2
    have hs1 : s = t + 1 := by omega
    subst hs1
    have h4 : 2 ^ 53 * 2 ^ t ≤ c * 2 ^ t := by
      have : 2 ^ (52 + (t + 1)) = 2 ^ 53 * 2 ^ t := by
        rw [← Nat.pow_add]; congr 1; omega
      rw [← this]; exact h
    have h5 : 2 ^ 53 ≤ c := Nat.le_of_mul_le_mul_right h4 (Nat.two_pow_pos _)
    have hc1 : c = 2 ^ 53 := Nat.le_antisymm hc h5
    subst hc1
    rw [← Nat.pow_add]
    exact Nat.pow_dvd_pow 2 (by omega)
  · exact Dvd.dvd.mul_left (Nat.pow_dvd_pow 2 hts) c

/-- Rounding leaves a number alone that is a multiple of `2^s` whenever it is
at least `2^(52+s)`. -/
theorem round53_of_dvd (P : Nat) (h : ∀ s, 2 ^ (52 + s) ≤ P → 2 ^ s ∣ P) : round53 P = P := by
  obtain ⟨_, h2⟩ := shiftOf_spec P P 0
  have hd : 2 ^ shiftOf P P 0 ∣ P := by
    rcases h2 with h2 | h2
    · rw [h2]; simp
    · exact h _ h2
  have hmod : P % 2 ^ shiftOf P P 0 = 0 := Nat.mod_eq_zero_of_dvd hd
  unfold round53
  simp only [hmod, Nat.mul_zero, Nat.two_pow_pos, if_true]
  exact Nat.div_mul_cancel hd

theorem round53_round53 (P : Nat) : round53 (round53 P) = round53 P :=
  round53_of_dvd _ (fun s hs => round53_dvd P s hs)

/-- The `float64` product of the integer `float64` value `round53 n` with
`mant * 2^(-k)` is at most `round53 n` when `mant ≤ 2^k`. -/
theorem round53_mul_le_float (n mant k : Nat) (hm : mant ≤ 2 ^ k) :
    round53 (round53 n * mant) ≤ round53 n * 2 ^ k := by
  refine round53_le _ _ (Nat.mul_le_mul_left _ hm) ?_
  intro s hs
  have hle : 2 ^ (52 + s) ≤ round53 n * 2 ^ k := le_trans hs (Nat.mul_le_mul_left _ hm)
  rcases Nat.lt_or_ge k s with hks | hks
  · obtain ⟨d, hd⟩ : ∃ d, s = k + d := ⟨s - k, by omega⟩
    subst hd
    have h1 : 2 ^ (52 + d) * 2 ^ k ≤ round53 n * 2 ^ k := by
      rw [← Nat.pow_add]
      have : 52 + d + k = 52 + (k + d) := by omega
      rw [this]; exact hle
    have h2 : 2 ^ (52 + d) ≤ round53 n := Nat.le_of_mul_le_mul_right h1 (Nat.two_pow_pos _)
    obtain ⟨t, ht⟩ := round53_dvd n d h2
    refine ⟨t, ?_⟩
    rw [ht, Nat.pow_add]
    ring
  · exact Dvd.dvd.mul_left (Nat.pow_dvd_pow 2 hks) _

/-- Conversion to `float64` is monotone up to powers of two: a number below
`2^63` rounds to at most `2^63`. -/
theorem round53_le_two_pow (n : Nat) (h : n ≤ 2 ^ 63) : round53 n ≤ 2 ^ 63 := by
  refine round53_le _ _ h ?_
  intro s hs
  have h2 : 2 ^ (52 + s) ≤ 2 ^ 63 := le_trans hs h
  have h3 : 52 + s ≤ 63 := (Nat.pow_le_pow_iff_right (by decide)).1 h2
  exact Nat.pow_dvd_pow 2 (by omega)

/-! ## The safety margin -/

namespace oauth

theorem safetyMarginTokenSource.Token_fresh (a : vouch.Vouch) (source : Exchanger)
    (margin : Float64) (dflt : Duration) (w : World) (tok : Ptr) (hp : Heap)
    (hsrc : source w.exchanges w.heap = (.ok tok, hp))
    (hfresh : ¬(w.lastToken = some tok ∧ w.lastAdjusted = true)) :
    ((safetyMarginTokenSource.mk source margin dflt a.dispatch).Token w).res = .ok tok ∧
      (((safetyMarginTokenSource.mk source margin dflt a.dispatch).Token w).world.heap tok).Expiry
        = (if (safetyMarginTokenSource.mk source margin dflt a.dispatch).nominalLifetime (hp tok) > 0
           then w.clock (w.ticks + 2) + mulToDuration
              ((safetyMarginTokenSource.mk source margin dflt a.dispatch).nominalLifetime (hp tok))
              margin
           else (hp tok).Expiry) ∧
      ((safetyMarginTokenSource.mk source margin dflt a.dispatch).Token w).world.dispatched
        = w.dispatched ++
            [.fetch
              { At := w.clock w.ticks, Type_ := "",
                Duration := w.clock (w.ticks + 1) - w.clock w.ticks,
                Expiration :=
                  (((safetyMarginTokenSource.mk source margin dflt a.dispatch).Token w).world.heap
                    tok).Expiry,
                OriginalExpiration :=
                  (if (safetyMarginTokenSource.mk source margin dflt a.dispatch).nominalLifetime
                        (hp tok) > 0
                   then w.clock (w.ticks + 2) +
                     (safetyMarginTokenSource.mk source margin dflt a.dispatch).nominalLifetime
                       (hp tok)
                   else 0),
                Err := none }] ∧
      ((safetyMarginTokenSource.mk source margin dflt a.dispatch).Token w).world.lastToken
        = some tok ∧
      ((safetyMarginTokenSource.mk source margin dflt a.dispatch).Token w).world.lastAdjusted
        = true := by
  have hfresh' : ¬(w.lastToken = some tok ∧ w.lastAdjusted = true) := hfresh
  by_cases hL : (safetyMarginTokenSource.mk source margin dflt a.dispatch).nominalLifetime (hp tok) > 0
  · simp [safetyMarginTokenSource.Token, timeNow, timeSince, hsrc, hfresh', hL]
  · simp [safetyMarginTokenSource.Token, timeNow, timeSince, hsrc, hfresh', hL]

end oauth

theorem scaleTrunc_zero (exp : Int) : scaleTrunc 0 exp = 0 := by
  cases exp <;> simp [scaleTrunc]

theorem mulToDuration_unit_interval (L : Int) (neg : Bool) (mant : Nat) (exp : Int)
    (hpos : 0 < L) (hle : L ≤ 2 ^ 53)
    (h0 : (Float64.fin neg mant exp).ltZero = false)
    (h1 : (Float64.fin neg mant exp).gtOne = false) :
    mulToDuration L (.fin neg mant exp) = (scaleTrunc (round53 (L.toNat * mant)) exp : Int) ∧
      0 ≤ mulToDuration L (.fin neg mant exp) ∧
      mulToDuration L (.fin neg mant exp) ≤ L := by
  obtain ⟨n, rfl⟩ : ∃ n : Nat, L = (n : Int) := ⟨L.toNat, (Int.toNat_of_nonneg hpos.le).symm⟩
  have hn : n ≤ 2 ^ 53 := by exact_mod_cast hle
  have hr : round53 n = n := round53_of_le n hn
  have hnotneg : decide ((n : Int) < 0) = false := by simp
  have h00 : round53 0 = 0 := by decide
  -- the magnitude of the product is at most `n`
  have hmag : scaleTrunc (round53 (n * mant)) exp ≤ n := by
    cases neg with
    | true =>
      have hm : mant = 0 := by simpa [Float64.ltZero] using h0
      subst hm
      simp [h00, scaleTrunc_zero]
    | false =>
      cases exp with
      | ofNat e =>
        have hm : mant * 2 ^ e ≤ 1 := by simpa [Float64.gtOne] using h1
        show round53 (n * mant) * 2 ^ e ≤ n
        rcases Nat.eq_zero_or_pos mant with hz | hp
        · subst hz
          simp [h00]
        · have he : 0 < 2 ^ e := Nat.two_pow_pos e
          have hm1 : mant = 1 := by
            have : mant * 2 ^ e ≥ mant := Nat.le_mul_of_pos_right mant he
            omega
          subst hm1
          have he1 : 2 ^ e = 1 := by omega
          simp [he1, hr]
      | negSucc e =>
        have hm : mant ≤ 2 ^ (e + 1) := by simpa [Float64.gtOne] using h1
        show round53 (n * mant) / 2 ^ (e + 1) ≤ n
        exact Nat.div_le_of_le_mul (by
          rw [Nat.mul_comm (2 ^ (e + 1)) n]; exact round53_mul_le n mant (e + 1) hn hm)
  have hbound : (scaleTrunc (round53 (n * mant)) exp : Int) < 2 ^ 63 := by
    have h1 : (scaleTrunc (round53 (n * mant)) exp : Int) ≤ (n : Int) := by exact_mod_cast hmag
    have h53 : (n : Int) ≤ 2 ^ 53 := hle
    have h63 : (2 : Int) ^ 53 < 2 ^ 63 := by decide
    omega
  have hlow : -(2 : Int) ^ 63 ≤ (scaleTrunc (round53 (n * mant)) exp : Int) := by
    have h1 : (0 : Int) ≤ (scaleTrunc (round53 (n * mant)) exp : Int) := Int.ofNat_nonneg _
    have h63 : -(2 : Int) ^ 63 ≤ 0 := by decide
    omega
  have hval : mulToDuration (n : Int) (.fin neg mant exp)
      = (scaleTrunc (round53 (n * mant)) exp : Int) := by
    cases neg with
    | false =>
      simp only [mulToDuration, Int.natAbs_ofNat, hr, hnotneg]
      rw [if_pos ⟨hlow, hbound⟩]
      simp
    | true =>
      have hm : mant = 0 := by simpa [Float64.ltZero] using h0
      subst hm
      simp [mulToDuration, hr, h00, scaleTrunc_zero]
  refine ⟨by simpa using hval, ?_, ?_⟩
  · rw [hval]; exact Int.ofNat_nonneg _
  · rw [hval]; exact_mod_cast hmag

/-- The product of a positive `int64` lifetime with a margin in [0,1]: the
`float64` product of `float64(L)` with the margin, as an `int64`, is never more
than `float64(L)`. -/
theorem mulToDuration_float (L : Int) (neg : Bool) (mant : Nat) (exp : Int)
    (hpos : 0 < L)
    (h0 : (Float64.fin neg mant exp).ltZero = false)
    (h1 : (Float64.fin neg mant exp).gtOne = false) :
    mulToDuration L (.fin neg mant exp)
        = (if scaleTrunc (round53 (round53 L.toNat * mant)) exp < 2 ^ 63
           then (scaleTrunc (round53 (round53 L.toNat * mant)) exp : Int)
           else int64Indefinite) ∧
      mulToDuration L (.fin neg mant exp) ≤ (round53 L.toNat : Int) := by
  obtain ⟨n, rfl⟩ : ∃ n : Nat, L = (n : Int) := ⟨L.toNat, (Int.toNat_of_nonneg hpos.le).symm⟩
  have hnotneg : decide ((n : Int) < 0) = false := by simp
  have h00 : round53 0 = 0 := by decide
  have hmag : scaleTrunc (round53 (round53 n * mant)) exp ≤ round53 n := by
    cases neg with
    | true =>
      have hm : mant = 0 := by simpa [Float64.ltZero] using h0
      subst hm
      simp [h00, scaleTrunc_zero]
    | false =>
      cases exp with
      | ofNat e =>
        have hm : mant * 2 ^ e ≤ 1 := by simpa [Float64.gtOne] using h1
        show round53 (round53 n * mant) * 2 ^ e ≤ round53 n
        rcases Nat.eq_zero_or_pos mant with hz | hp
        · subst hz
          simp [h00]
        · have he : 0 < 2 ^ e := Nat.two_pow_pos e
          have hm1 : mant = 1 := by
            have : mant * 2 ^ e ≥ mant := Nat.le_mul_of_pos_right mant he
            omega
          subst hm1
          have he1 : 2 ^ e = 1 := by omega
          simp [he1, round53_round53]
      | negSucc e =>
        have hm : mant ≤ 2 ^ (e + 1) := by simpa [Float64.gtOne] using h1
        show round53 (round53 n * mant) / 2 ^ (e + 1) ≤ round53 n
        exact Nat.div_le_of_le_mul (by
          rw [Nat.mul_comm (2 ^ (e + 1)) (round53 n)]
          exact round53_mul_le_float n mant (e + 1) hm)
  have hlow : -(2 : Int) ^ 63 ≤ (scaleTrunc (round53 (round53 n * mant)) exp : Int) := by
    have h1 : (0 : Int) ≤ (scaleTrunc (round53 (round53 n * mant)) exp : Int) :=
      Int.ofNat_nonneg _
    have h63 : -(2 : Int) ^ 63 ≤ 0 := by decide
    omega
  have hval : mulToDuration (n : Int) (.fin neg mant exp)
      = (if scaleTrunc (round53 (round53 n * mant)) exp < 2 ^ 63
         then (scaleTrunc (round53 (round53 n * mant)) exp : Int)
         else int64Indefinite) := by
    cases neg with
    | false =>
      simp only [mulToDuration, Int.natAbs_ofNat, hnotneg]
      by_cases hb : scaleTrunc (round53 (round53 n * mant)) exp < 2 ^ 63
      · have hb1 : (scaleTrunc (round53 (round53 n * mant)) exp : Int) < 2 ^ 63 := by
          exact_mod_cast hb
        rw [if_pos hb]
        simp only [bne_self_eq_false, Bool.false_eq_true, if_false]
        rw [if_pos ⟨hlow, hb1⟩]
      · have hb1 : ¬ (scaleTrunc (round53 (round53 n * mant)) exp : Int) < 2 ^ 63 := by
          intro hc
          exact hb (by exact_mod_cast hc)
        rw [if_neg hb]
        simp only [bne_self_eq_false, Bool.false_eq_true, if_false]
        rw [if_neg (fun hc => hb1 hc.2)]
    | true =>
      have hm : mant = 0 := by simpa [Float64.ltZero] using h0
      subst hm
      simp [mulToDuration, h00, scaleTrunc_zero]
  refine ⟨by simpa using hval, ?_⟩
  rw [hval]
  simp only [Int.toNat_ofNat]
  split
  · exact_mod_cast hmag
  · have h63 : int64Indefinite ≤ 0 := by decide
    exact le_trans h63 (Int.ofNat_nonneg _)

namespace oauth

/-- C5, as the code has it: with the margin 1 and the nominal lifetime
9007199254740995 ns (about 104 days, from `DefaultTokenDuration`), the
conversion of the lifetime to `float64` rounds up, and `Token` sets the expiry
one nanosecond after the original expiry it records in the event; with the
lifetime 3 ns and the margin nearest to one third, the `float64` product is 1
while the exact product truncates to 0. -/
theorem safetyMarginTokenSource.Token_margin_counterexample :
    (Float64.fin false 1 0).ltZero = false ∧ (Float64.fin false 1 0).gtOne = false ∧
      ((safetyMarginTokenSource.mk (Exchanger.returning { AccessToken := "abc" })
          (.fin false 1 0) 9007199254740995 (vouch.Vouch.dispatch {})).Token
        World.initial).world.dispatched
        = [.fetch { At := 1000, Type_ := "", Duration := 10,
                    Expiration := 1020 + 9007199254740996,
                    OriginalExpiration := 1020 + 9007199254740995, Err := none }] ∧
      ¬ ((1020 : Int) + 9007199254740996 ≤ 1020 + 9007199254740995) ∧
      (((safetyMarginTokenSource.mk (Exchanger.returning { AccessToken := "abc" })
          (.fin false 6004799503160661 (-54)) 3 (vouch.Vouch.dispatch {})).Token
        World.initial).world.heap 0).Expiry = 1020 + 1 ∧
      3 * 6004799503160661 / 2 ^ 54 = 0 := by
  refine ⟨by decide, by decide, ?_, by decide, ?_, by decide⟩
  · have h := (safetyMarginTokenSource.Token_fresh {} (Exchanger.returning { AccessToken := "abc" })
      (.fin false 1 0) 9007199254740995 World.initial 0
      (Function.update World.initial.heap 0 { AccessToken := "abc" }) rfl (by decide))
    have hL : (safetyMarginTokenSource.mk (Exchanger.returning { AccessToken := "abc" })
        (.fin false 1 0) 9007199254740995 (vouch.Vouch.dispatch {})).nominalLifetime
          (Function.update World.initial.heap 0 { AccessToken := "abc" } 0)
        = 9007199254740995 := by decide
    have hM : mulToDuration 9007199254740995 (.fin false 1 0) = 9007199254740996 := by decide
    rw [h.2.2.1, h.2.1, hL, hM]
    rfl
  · have h := (safetyMarginTokenSource.Token_fresh {} (Exchanger.returning { AccessToken := "abc" })
      (.fin false 6004799503160661 (-54)) 3 World.initial 0
      (Function.update World.initial.heap 0 { AccessToken := "abc" }) rfl (by decide))
    have hL : (safetyMarginTokenSource.mk (Exchanger.returning { AccessToken := "abc" })
        (.fin false 6004799503160661 (-54)) 3 (vouch.Vouch.dispatch {})).nominalLifetime
          (Function.update World.initial.heap 0 { AccessToken := "abc" } 0)
        = 3 := by decide
    have hM : mulToDuration 3 (.fin false 6004799503160661 (-54)) = 1 := by decide
    rw [h.2.1, hL, hM]
    rfl

/-- C5, amended: for a margin `m` in [0,1] and a freshly fetched token whose
nominal lifetime `L` is positive, `Token` sets the expiry to `issuedAt` plus
the `float64` product of `float64(L)` and `m` converted to `int64` (truncated
to a whole nanosecond), and records that expiry and
`OriginalExpiration = issuedAt + L` in the single fetch event.  The adjusted
expiry is never later than `issuedAt + float64(L)`, so it is never later than
the original expiry whenever the conversion of `L` to `float64` does not round
up, as for every `L ≤ 2^53` ns and every larger `L` that is itself a `float64`.
With `m = 1` the product is `float64(L)` and with `m = 0` it is 0.  A product
of `2^63`, which only a lifetime within 512 ns of the largest `int64` gives,
converts to the least `int64`. -/
theorem safetyMarginTokenSource.Token_margin (a : vouch.Vouch) (source : Exchanger)
    (neg : Bool) (mant : Nat) (exp : Int) (dflt : Duration) (w : World) (tok : Ptr) (hp : Heap)
    (L : Duration)
    (hsrc : source w.exchanges w.heap = (.ok tok, hp))
    (hfresh : ¬(w.lastToken = some tok ∧ w.lastAdjusted = true))
    (hL : (safetyMarginTokenSource.mk source (.fin neg mant exp) dflt
      a.dispatch).nominalLifetime (hp tok) = L)
    (hpos : 0 < L)
    (h0 : (Float64.fin neg mant exp).ltZero = false)
    (h1 : (Float64.fin neg mant exp).gtOne = false) :
    (((safetyMarginTokenSource.mk source (.fin neg mant exp) dflt a.dispatch).Token
        w).world.heap tok).Expiry
        = w.clock (w.ticks + 2) + mulToDuration L (.fin neg mant exp) ∧
      ((safetyMarginTokenSource.mk source (.fin neg mant exp) dflt a.dispatch).Token
        w).world.dispatched
        = w.dispatched ++
            [.fetch { At := w.clock w.ticks, Type_ := "",
                      Duration := w.clock (w.ticks + 1) - w.clock w.ticks,
                      Expiration := w.clock (w.ticks + 2) + mulToDuration L (.fin neg mant exp),
                      OriginalExpiration := w.clock (w.ticks + 2) + L, Err := none }] ∧
      mulToDuration L (.fin neg mant exp)
        = (if scaleTrunc (round53 (round53 L.toNat * mant)) exp < 2 ^ 63
           then (scaleTrunc (round53 (round53 L.toNat * mant)) exp : Int)
           else int64Indefinite) ∧
      w.clock (w.ticks + 2) + mulToDuration L (.fin neg mant exp)
        ≤ w.clock (w.ticks + 2) + (round53 L.toNat : Int) ∧
      (round53 L.toNat ≤ L.toNat →
        w.clock (w.ticks + 2) + mulToDuration L (.fin neg mant exp)
          ≤ w.clock (w.ticks + 2) + L) ∧
      (L ≤ 2 ^ 53 → round53 L.toNat = L.toNat) ∧
      mulToDuration L (.fin false 1 0)
        = (if round53 L.toNat < 2 ^ 63 then (round53 L.toNat : Int) else int64Indefinite) ∧
      mulToDuration L (.fin false 0 0) = 0 := by
  obtain ⟨hv, hub⟩ := mulToDuration_float L neg mant exp hpos h0 h1
  obtain ⟨_, hexp, hev, _, _⟩ :=
    safetyMarginTokenSource.Token_fresh a source (.fin neg mant exp) dflt w tok hp hsrc hfresh
  rw [hL] at hexp hev
  simp only [hpos, gt_iff_lt, if_true] at hexp hev
  have hcast : ((L.toNat : Nat) : Int) = L := Int.toNat_of_nonneg hpos.le
  refine ⟨hexp, ?_, hv, add_le_add_left hub _, ?_, ?_, ?_, ?_⟩
  · rw [hev, hexp]
  · intro hexact
    have h2 : ((round53 L.toNat : Nat) : Int) ≤ L := by
      rw [← hcast]
      simp only [Int.toNat_ofNat]
      exact_mod_cast hexact
    exact add_le_add_left (le_trans hub h2) _
  · intro hle
    have hn : L.toNat ≤ 2 ^ 53 := by
      have : ((L.toNat : Nat) : Int) ≤ ((2 ^ 53 : Nat) : Int) := by
        rw [hcast]; exact_mod_cast hle
      exact_mod_cast this
    exact round53_of_le _ hn
  · have h := (mulToDuration_float L false 1 0 hpos (by decide) (by decide)).1
    rw [h]
    show (if round53 (round53 L.toNat * 1) * 2 ^ 0 < 2 ^ 63
      then ((round53 (round53 L.toNat * 1) * 2 ^ 0 : Nat) : Int) else int64Indefinite) = _
    simp only [Nat.mul_one, pow_zero, round53_round53]
  · have h := (mulToDuration_float L false 0 0 hpos (by decide) (by decide)).1
    rw [h]
    have h00 : round53 0 = 0 := by decide
    simp [scaleTrunc_zero, h00]

theorem safetyMarginTokenSource.Token_margin_witness :
    (((safetyMarginTokenSource.mk (Exchanger.returning { AccessToken := "abc" })
          (.fin false 7205759403792794 (-53)) 31536000000000000
          (vouch.Vouch.dispatch {})).Token
        World.initial).world.heap 0).Expiry = 1020 + 25228800000000000 ∧
      (((safetyMarginTokenSource.mk (Exchanger.returning { AccessToken := "abc" })
          (.fin false 7205759403792794 (-53)) 31536000000000000
          (vouch.Vouch.dispatch {})).Token
        World.initial).world.heap 0).Expiry ≤ 1020 + 31536000000000000 := by
  have h := safetyMarginTokenSource.Token_margin {}
    (Exchanger.returning { AccessToken := "abc" })
    false 7205759403792794 (-53) 31536000000000000 World.initial 0
    (Function.update World.initial.heap 0 { AccessToken := "abc" })
    31536000000000000 rfl (by decide) (by decide) (by decide) (by decide) (by decide)
  have hm : mulToDuration 31536000000000000 (.fin false 7205759403792794 (-53))
      = 25228800000000000 := by decide
  refine ⟨?_, ?_⟩
  · rw [h.1, hm]
    rfl
  · rw [h.1]
    have hb := h.2.2.2.2.1 (by decide)
    exact hb

end oauth

namespace oauth

theorem wrapInt64_seconds (x : Int) (h0 : 0 < x) (h1 : x ≤ 9223372036) :
    wrapInt64 (1000000000 * x) = 1000000000 * x := by
  unfold wrapInt64
  have e63 : (2 : Int) ^ 63 = 9223372036854775808 := by norm_num
  have e64 : (2 : Int) ^ 64 = 18446744073709551616 := by norm_num
  rw [e63, e64]
  omega

/-- C6, as the code has it: for a token with `ExpiresIn = 9223372037` seconds
the 64 bit product with `time.Second` wraps to a negative lifetime, which is
neither `ExpiresIn` seconds nor the configured default of one hour; `Token`
then leaves the expiry as the exchanger supplied it and records no original
expiry, although `ExpiresIn > 0`. -/
theorem safetyMarginTokenSource.Token_lifetime_counterexample :
    (0 : Int) < 9223372037 ∧
      (safetyMarginTokenSource.mk
          (Exchanger.returning { AccessToken := "abc", Expiry := 5000, ExpiresIn := 9223372037 })
          (.fin false 7205759403792794 (-53)) 3600000000000
          (vouch.Vouch.dispatch {})).nominalLifetime
        { AccessToken := "abc", Expiry := 5000, ExpiresIn := 9223372037 }
        = -9223372036709551616 ∧
      (-9223372036709551616 : Int) ≠ 1000000000 * 9223372037 ∧
      ((safetyMarginTokenSource.mk
          (Exchanger.returning { AccessToken := "abc", Expiry := 5000, ExpiresIn := 9223372037 })
          (.fin false 7205759403792794 (-53)) 3600000000000
          (vouch.Vouch.dispatch {})).Token World.initial).world.dispatched
        = [.fetch { At := 1000, Type_ := "", Duration := 10, Expiration := 5000,
                    OriginalExpiration := 0, Err := none }] := by
  refine ⟨by decide, by decide, by decide, ?_⟩
  have h := (safetyMarginTokenSource.Token_fresh {}
    (Exchanger.returning { AccessToken := "abc", Expiry := 5000, ExpiresIn := 9223372037 })
    (.fin false 7205759403792794 (-53)) 3600000000000 World.initial 0
    (Function.update World.initial.heap 0
      { AccessToken := "abc", Expiry := 5000, ExpiresIn := 9223372037 }) rfl (by decide))
  have hL : (safetyMarginTokenSource.mk
      (Exchanger.returning { AccessToken := "abc", Expiry := 5000, ExpiresIn := 9223372037 })
      (.fin false 7205759403792794 (-53)) 3600000000000
      (vouch.Vouch.dispatch {})).nominalLifetime
        (Function.update World.initial.heap 0
          { AccessToken := "abc", Expiry := 5000, ExpiresIn := 9223372037 } 0)
      = -9223372036709551616 := by decide
  rw [h.2.2.1, h.2.1, hL]
  rfl

/-- C6, amended: for a freshly fetched token whose `ExpiresIn` is at most
9223372036 (so that its seconds fit a `time.Duration`), `Token` takes as the
nominal lifetime `ExpiresIn` seconds when `ExpiresIn > 0` and the configured
`DefaultTokenDuration` otherwise; when the lifetime so chosen is not positive,
the expiry is the one the exchanger supplied and the `OriginalExpiration` of
the fetch event is zero, and otherwise both are set from the lifetime. -/
theorem safetyMarginTokenSource.Token_lifetime (a : vouch.Vouch) (source : Exchanger)
    (margin : Float64) (dflt : Duration) (w : World) (tok : Ptr) (hp : Heap)
    (hsrc : source w.exchanges w.heap = (.ok tok, hp))
    (hfresh : ¬(w.lastToken = some tok ∧ w.lastAdjusted = true))
    (hE : (hp tok).ExpiresIn ≤ 9223372036) :
    (safetyMarginTokenSource.mk source margin dflt a.dispatch).nominalLifetime (hp tok)
        = (if (hp tok).ExpiresIn > 0 then 1000000000 * (hp tok).ExpiresIn else dflt) ∧
      (((safetyMarginTokenSource.mk source margin dflt a.dispatch).Token w).world.heap tok).Expiry
        = (if (if (hp tok).ExpiresIn > 0 then 1000000000 * (hp tok).ExpiresIn else dflt) > 0
           then w.clock (w.ticks + 2) + mulToDuration
              (if (hp tok).ExpiresIn > 0 then 1000000000 * (hp tok).ExpiresIn else dflt) margin
           else (hp tok).Expiry) ∧
      ((safetyMarginTokenSource.mk source margin dflt a.dispatch).Token w).world.dispatched
        = w.dispatched ++
            [.fetch
              { At := w.clock w.ticks, Type_ := "",
                Duration := w.clock (w.ticks + 1) - w.clock w.ticks,
                Expiration :=
                  (((safetyMarginTokenSource.mk source margin dflt a.dispatch).Token w).world.heap
                    tok).Expiry,
                OriginalExpiration :=
                  (if (if (hp tok).ExpiresIn > 0 then 1000000000 * (hp tok).ExpiresIn else dflt) > 0
                   then w.clock (w.ticks + 2) +
                     (if (hp tok).ExpiresIn > 0 then 1000000000 * (hp tok).ExpiresIn else dflt)
                   else 0),
                Err := none }] := by
  have hL : (safetyMarginTokenSource.mk source margin dflt a.dispatch).nominalLifetime (hp tok)
      = (if (hp tok).ExpiresIn > 0 then 1000000000 * (hp tok).ExpiresIn else dflt) := by
    unfold safetyMarginTokenSource.nominalLifetime
    by_cases hx : (hp tok).ExpiresIn > 0
    · simp only [hx, if_true]
      exact wrapInt64_seconds _ hx hE
    · simp only [hx, if_false]
  obtain ⟨_, hexp, hev, _, _⟩ :=
    safetyMarginTokenSource.Token_fresh a source margin dflt w tok hp hsrc hfresh
  rw [hL] at hexp hev
  exact ⟨hL, hexp, hev⟩

theorem safetyMarginTokenSource.Token_lifetime_witness :
    ((safetyMarginTokenSource.mk
        (Exchanger.returning { AccessToken := "abc", Expiry := 5000 })
        (.fin false 7205759403792794 (-53)) 0
        (vouch.Vouch.dispatch {})).Token World.initial).world.dispatched
      = [.fetch { At := 1000, Type_ := "", Duration := 10, Expiration := 5000,
                  OriginalExpiration := 0, Err := none }] := by
  have h := safetyMarginTokenSource.Token_lifetime {}
    (Exchanger.returning { AccessToken := "abc", Expiry := 5000 })
    (.fin false 7205759403792794 (-53)) 0 World.initial 0
    (Function.update World.initial.heap 0 { AccessToken := "abc", Expiry := 5000 })
    rfl (by decide) (by decide)
  rw [h.2.2, h.2.1]
  rfl

end oauth

/-! ## The Basic strategy -/

theorem base64Char_value :
    ∀ n, n < 64 → base64Value (base64Char n) = some n ∧ base64Char n ≠ '=' := by
  decide

theorem base64Decode_encode :
    ∀ bs : List Nat, (∀ x ∈ bs, x < 256) → base64Decode (base64Encode bs) = some bs
  | [], _ => rfl
  | [a], h => by
    have ha : a < 256 := h a (by simp)
    obtain ⟨h1, _⟩ := base64Char_value (a / 4) (by omega)
    obtain ⟨h2, _⟩ := base64Char_value (a % 4 * 16) (by omega)
    simp only [base64Encode, base64Decode, h1, h2]
    simp
    omega
  | [a, b], h => by
    have ha : a < 256 := h a (by simp)
    have hb : b < 256 := h b (by simp)
    obtain ⟨h1, _⟩ := base64Char_value (a / 4) (by omega)
    obtain ⟨h2, _⟩ := base64Char_value (a % 4 * 16 + b / 16) (by omega)
    obtain ⟨h3, n3⟩ := base64Char_value (b % 16 * 4) (by omega)
    simp only [base64Encode, base64Decode, h1, h2, h3]
    simp [n3]
    omega
  | a :: b :: c :: rest, h => by
    have ha : a < 256 := h a (by simp)
    have hb : b < 256 := h b (by simp)
    have hc : c < 256 := h c (by simp)
    have hrest : ∀ x ∈ rest, x < 256 := fun x hx => h x (by simp [hx])
    obtain ⟨h1, _⟩ := base64Char_value (a / 4) (by omega)
    obtain ⟨h2, _⟩ := base64Char_value (a % 4 * 16 + b / 16) (by omega)
    obtain ⟨h3, n3⟩ := base64Char_value (b % 16 * 4 + c / 64) (by omega)
    obtain ⟨h4, n4⟩ := base64Char_value (c % 64) (by omega)
    have ih := base64Decode_encode rest hrest
    simp only [base64Encode, base64Decode, h1, h2, h3, h4, ih]
    simp [n3, n4]
    omega

theorem utf8Bytes_lt (c : Char) : ∀ x ∈ utf8Bytes c, x < 256 := by
  have hv : c.toNat < 1114112 := by
    have := c.valid
    simp only [Char.toNat]
    rcases this with h | ⟨_, h⟩
    · have : c.val.toNat < 55296 := h
      omega
    · exact h
  intro x hx
  unfold utf8Bytes at hx
  simp only [] at hx
  split at hx
  · simp at hx; omega
  · split at hx
    · simp at hx; omega
    · split at hx
      · simp at hx; omega
      · simp at hx; omega

theorem stringBytes_lt (s : String) : ∀ x ∈ stringBytes s, x < 256 := by
  intro x hx
  unfold stringBytes at hx
  obtain ⟨c, _, hc⟩ := List.mem_flatMap.1 hx
  exact utf8Bytes_lt c x hc

theorem Header.Get_Set (h : Header) (key value : String) :
    Header.Get (Header.Set h key value) key = value := by
  simp [Header.Get, Header.Set]

namespace basic

/-- C11: for every username and password `Basic.Decorate` returns nil and
sets the Authorization header of the request to exactly `Basic ` followed by
the standard base64 encoding of `username:password`: this is the one value
under Authorization, the headers under other keys are kept, and decoding the
text after `Basic ` gives back the bytes of `username:password`.  For the
username `user` and the password `pass` the header is `Basic dXNlcjpwYXNz`. -/
theorem Basic.Decorate_sets_header (b : Basic) (req : Request) (w : World) :
    (b.Decorate req w).1 = none ∧
      (b.Decorate req w).2.1.Header.Get "Authorization"
        = "Basic " ++ String.mk (base64Encode (stringBytes (b.username ++ ":" ++ b.password))) ∧
      (b.Decorate req w).2.1.Header.filter (fun kv => kv.1 == "Authorization")
        = [("Authorization",
            ["Basic " ++
              String.mk (base64Encode (stringBytes (b.username ++ ":" ++ b.password)))])] ∧
      (b.Decorate req w).2.1.Header.filter (fun kv => kv.1 != "Authorization")
        = req.Header.filter (fun kv => kv.1 != "Authorization") ∧
      base64Decode (base64Encode (stringBytes (b.username ++ ":" ++ b.password)))
        = some (stringBytes (b.username ++ ":" ++ b.password)) ∧
      ((Basic.mk b.priority "user" "pass" b.dispatch).Decorate req w).2.1.Header.Get
        "Authorization" = "Basic dXNlcjpwYXNz" := by
  refine ⟨rfl, ?_, ?_, ?_, base64Decode_encode _ (stringBytes_lt _), ?_⟩
  · exact Header.Get_Set _ _ _
  · simp [Basic.Decorate, Request.SetBasicAuth, Header.Set, List.filter_filter]
  · simp [Basic.Decorate, Request.SetBasicAuth, Header.Set, List.filter_filter]
  · rw [show ((Basic.mk b.priority "user" "pass" b.dispatch).Decorate req w).2.1.Header.Get
        "Authorization" = "Basic " ++ String.mk (base64Encode (stringBytes ("user" ++ ":" ++ "pass")))
        from Header.Get_Set _ _ _]
    decide

end basic

/-! ## The event of the chain -/

namespace vouch

theorem Vouch.Decorate_err_eq (a : Vouch) (req : Request) (w : World) :
    (a.Decorate req w).err
      = (if anySucceeds a.decorators req (timeNow w).2 then none
         else errorsJoin (outcomes a.decorators req (timeNow w).2)) := by
  obtain ⟨_, h2, h3, _⟩ := decorateLoop_afterCalls a.decorators 0 [] req (timeNow w).2 []
  cases hany : anySucceeds a.decorators req (timeNow w).2 with
  | true =>
    rw [hany] at h2
    simp [Vouch.Decorate, h2]
  | false =>
    rw [hany] at h2
    have he := h3 hany
    simp only [List.nil_append] at he
    simp [Vouch.Decorate, h2, he]

theorem Vouch.Decorate_world_eq (a : Vouch) (req : Request) (w : World) :
    (a.Decorate req w).world
      = (if anySucceeds a.decorators req (timeNow w).2
         then (afterCalls a.decorators req (timeNow w).2).2
         else a.dispatch
           (.decorate
             { At := (timeNow w).1, Type_ := "none",
               Duration :=
                 (timeSince (timeNow w).1 (afterCalls a.decorators req (timeNow w).2).2).1,
               Expiration := 0,
               Err := errorsJoin (outcomes a.decorators req (timeNow w).2) })
           (timeSince (timeNow w).1 (afterCalls a.decorators req (timeNow w).2).2).2) := by
  obtain ⟨h1, h2, h3, _⟩ := decorateLoop_afterCalls a.decorators 0 [] req (timeNow w).2 []
  have hw : (decorateLoop a.decorators 0 [] req (timeNow w).2 []).world
      = (afterCalls a.decorators req (timeNow w).2).2 := congrArg Prod.snd h1
  cases hany : anySucceeds a.decorators req (timeNow w).2 with
  | true =>
    rw [hany] at h2
    simp [Vouch.Decorate, h2, hw]
  | false =>
    rw [hany] at h2
    have he := h3 hany
    simp only [List.nil_append] at he
    simp [Vouch.Decorate, h2, he, hw]

/-- C12: `Vouch.Decorate` itself hands `dispatch` a `DecorateEvent` exactly
when no decorator succeeded.  When some decorator succeeds it returns nil and
leaves the world as the decorators' calls left it.  When none succeeds it
returns the join of their errors and dispatches, after their calls, exactly
one event: a `DecorateEvent` of `Type` "none" whose `Err` is the error that
`Decorate` returns. -/
theorem Vouch.Decorate_own_event (a : Vouch) (req : Request) (w : World) :
    (a.Decorate req w).err
        = (if anySucceeds a.decorators req (timeNow w).2 then none
           else errorsJoin (outcomes a.decorators req (timeNow w).2)) ∧
      (a.Decorate req w).world
        = (if anySucceeds a.decorators req (timeNow w).2
           then (afterCalls a.decorators req (timeNow w).2).2
           else a.dispatch
             (.decorate
               { At := (timeNow w).1, Type_ := "none",
                 Duration :=
                   (timeSince (timeNow w).1 (afterCalls a.decorators req (timeNow w).2).2).1,
                 Expiration := 0, Err := (a.Decorate req w).err })
             (timeSince (timeNow w).1 (afterCalls a.decorators req (timeNow w).2).2).2) ∧
      (a.Decorate req w).world.dispatched
        = (afterCalls a.decorators req (timeNow w).2).2.dispatched ++
            (if anySucceeds a.decorators req (timeNow w).2 then []
             else [.decorate
               { At := (timeNow w).1, Type_ := "none",
                 Duration :=
                   (timeSince (timeNow w).1 (afterCalls a.decorators req (timeNow w).2).2).1,
                 Expiration := 0, Err := (a.Decorate req w).err }]) := by
  have herr := Vouch.Decorate_err_eq a req w
  have hworld := Vouch.Decorate_world_eq a req w
  refine ⟨herr, ?_, ?_⟩ <;> rw [hworld, herr] <;>
    cases anySucceeds a.decorators req (timeNow w).2
  · simp
  · simp
  · simp only [Bool.false_eq_true, if_false, Vouch.dispatch_dispatched]
    rfl
  · simp

end vouch

/-! ## What `dispatch` publishes -/

theorem Eventor.Visit_delivered (g : Nat × Nat → Delivery) (e : Eventor) (w : World) :
    (e.Visit (fun r w1 => { w1 with delivered := w1.delivered ++ [g r] }) w).delivered
      = w.delivered ++ e.regs.map g := by
  unfold Eventor.Visit
  generalize e.regs = rs
  induction rs generalizing w with
  | nil => simp
  | cons r rs ih => simp only [List.foldl_cons, ih]; simp

theorem decorateEvents_append (l1 l2 : List Event) :
    decorateEvents (l1 ++ l2) = decorateEvents l1 ++ decorateEvents l2 := by
  simp [decorateEvents]

theorem decorateDeliveries_append (l1 l2 : List Delivery) :
    decorateDeliveries (l1 ++ l2) = decorateDeliveries l1 ++ decorateDeliveries l2 := by
  simp [decorateDeliveries]

theorem published_append (e : Eventor) (l1 l2 : List events.DecorateEvent) :
    published e (l1 ++ l2) = published e l1 ++ published e l2 := by
  simp [published]

theorem published_nil (e : Eventor) : published e [] = [] := rfl

namespace vouch

theorem Vouch.dispatch_fetch_delivered (a : Vouch) (e : events.FetchEvent) (w : World) :
    (a.dispatch (.fetch e) w).delivered
      = w.delivered ++ w.fetchListeners.regs.map (fun r => .onFetch r.1 r.2 e) :=
  Eventor.Visit_delivered (fun r => .onFetch r.1 r.2 e) _ _

theorem Vouch.dispatch_decorate_delivered (a : Vouch) (e : events.DecorateEvent) (w : World) :
    (a.dispatch (.decorate e) w).delivered
      = w.delivered ++ w.decorateListeners.regs.map (fun r => .onDecorate r.1 r.2 e) :=
  Eventor.Visit_delivered (fun r => .onDecorate r.1 r.2 e) _ _

theorem Vouch.dispatch_fetch_view (a : Vouch) (e : events.FetchEvent) (w : World) :
    decorateView (a.dispatch (.fetch e) w) = decorateView w := by
  simp [decorateView, Vouch.dispatch_fetch_delivered, decorateEvents_append,
    decorateDeliveries_append, decorateEvents, decorateDeliveries, List.filterMap_map,
    List.filterMap_eq_nil_iff]

theorem Vouch.dispatch_decorate_view (a : Vouch) (e : events.DecorateEvent) (w : World) :
    decorateView (a.dispatch (.decorate e) w)
      = (decorateEvents w.dispatched ++ [e], w.decorateListeners,
          decorateDeliveries w.delivered ++ published w.decorateListeners [e]) := by
  simp [decorateView, Vouch.dispatch_decorate_delivered, decorateEvents_append,
    decorateDeliveries_append, decorateEvents, decorateDeliveries, List.filterMap_map,
    published]
  induction w.decorateListeners.regs with
  | nil => rfl
  | cons r rs ih => simp [List.filterMap_cons, ih]

end vouch

/-! ## The `DecorateEvent`s of one call of the chain -/

namespace oauth

theorem safetyMarginTokenSource.Token_view (s : safetyMarginTokenSource) (a : vouch.Vouch)
    (hs : s.dispatch = a.dispatch) (w : World) :
    decorateView (s.Token w).world = decorateView w := by
  unfold safetyMarginTokenSource.Token
  simp only [hs]
  split
  · rw [vouch.Vouch.dispatch_fetch_view]; rfl
  · split
    · rw [vouch.Vouch.dispatch_fetch_view]; rfl
    · rw [vouch.Vouch.dispatch_fetch_view]
      split <;> rfl

theorem OAuth.Decorate_view_oauth (o : OAuth) (a : vouch.Vouch) (hd : o.dispatch = a.dispatch)
    (hts : ∀ w, decorateView (o.ts w).world = decorateView w) (req : Request) (w : World) :
    ∃ e, e.Type_ = "oauth2" ∧ e.Err = (o.Decorate req w).1 ∧
      decorateView (o.Decorate req w).2.2
        = (decorateEvents w.dispatched ++ [e], w.decorateListeners,
            decorateDeliveries w.delivered ++ published w.decorateListeners [e]) := by
  have hv : decorateView (timeSince (timeNow w).1 (o.ts (timeNow w).2).world).2
      = decorateView w := (hts (timeNow w).2).trans rfl
  have hv1 := congrArg Prod.fst hv
  have hv2 := congrArg (fun p => p.2.1) hv
  have hv3 := congrArg (fun p => p.2.2) hv
  simp only [decorateView] at hv1 hv2 hv3
  unfold OAuth.Decorate
  simp only [hd]
  split
  · exact ⟨_, rfl, rfl, by rw [vouch.Vouch.dispatch_decorate_view, hv1, hv2, hv3]⟩
  · exact ⟨_, rfl, rfl, by rw [vouch.Vouch.dispatch_decorate_view, hv1, hv2, hv3]⟩

end oauth

namespace basic

theorem Basic.Decorate_view_basic (b : Basic) (a : vouch.Vouch) (hd : b.dispatch = a.dispatch)
    (req : Request) (w : World) :
    ∃ e, e.Type_ = "basic" ∧ e.Err = (b.Decorate req w).1 ∧
      decorateView (b.Decorate req w).2.2
        = (decorateEvents w.dispatched ++ [e], w.decorateListeners,
            decorateDeliveries w.delivered ++ published w.decorateListeners [e]) := by
  unfold Basic.Decorate
  simp only [hd]
  exact ⟨_, rfl, rfl, by rw [vouch.Vouch.dispatch_decorate_view]; rfl⟩

end basic

namespace vouch

theorem afterCalls_view (R : decorator → String → Prop) (ds : List decorator)
    (hds : ∀ d ∈ ds, ∃ t, R d t ∧ ∀ req w, ∃ e : events.DecorateEvent,
      e.Type_ = t ∧ e.Err = (d.Decorate req w).1 ∧
      decorateView (d.Decorate req w).2.2
        = (decorateEvents w.dispatched ++ [e], w.decorateListeners,
            decorateDeliveries w.delivered ++ published w.decorateListeners [e])) :
    ∀ (req : Request) (w : World), ∃ evs : List events.DecorateEvent,
      evs.length = (decorateLoop ds 0 [] req w []).invoked.length ∧
        evs.map (fun e => e.Err) = (outcomes ds req w).take evs.length ∧
        List.Forall₂ (fun d e => R d e.Type_) (ds.take evs.length) evs ∧
        decorateView (afterCalls ds req w).2
          = (decorateEvents w.dispatched ++ evs, w.decorateListeners,
              decorateDeliveries w.delivered ++ published w.decorateListeners evs) := by
  induction ds with
  | nil =>
    intro req w
    exact ⟨[], by simp [decorateLoop], by simp, by simp,
      by simp [afterCalls, decorateView, published]⟩
  | cons d ds ih =>
    intro req w
    obtain ⟨t, hR, hstep⟩ := hds d (List.mem_cons_self _ _)
    obtain ⟨e, het, hee, he⟩ := hstep req w
    rcases hd : d.Decorate req w with ⟨o, req1, w1⟩
    rw [hd] at he hee
    cases o with
    | none =>
      refine ⟨[e], by simp [decorateLoop, hd], by simp [outcomes, hd, hee], ?_,
        by simpa [afterCalls, hd] using he⟩
      simp only [List.length_singleton, List.take_succ_cons, List.take_zero]
      exact List.Forall₂.cons (by rw [het]; exact hR) List.Forall₂.nil
    | some err =>
      obtain ⟨evs, hlen, herrs, hty, hv⟩ :=
        ih (fun d1 h1 => hds d1 (List.mem_cons_of_mem _ h1)) req1 w1
      have h1 := congrArg Prod.fst he
      have h2 := congrArg (fun p => p.2.1) he
      have h3 := congrArg (fun p => p.2.2) he
      simp only [decorateView] at h1 h2 h3
      have hinv := (decorateLoop_afterCalls ds 1 [some err] req1 w1 [0]).2.2.2
      refine ⟨e :: evs, ?_, ?_, ?_, ?_⟩
      · simp only [decorateLoop, hd, List.nil_append, Nat.zero_add, hinv, List.length_cons,
          List.length_nil, hlen]
        omega
      · simp only [List.map_cons, List.length_cons, outcomes, hd, List.take_succ_cons, hee,
          herrs]
      · simp only [List.length_cons, List.take_succ_cons]
        exact List.Forall₂.cons (by rw [het]; exact hR) hty
      · simp only [afterCalls, hd, hv, h1, h2, h3]
        rw [show e :: evs = [e] ++ evs from rfl, published_append]
        simp

theorem New_decorators_view (lib : oauth.Oauth2) (cfg : Config) (v : Vouch)
    (h : New lib cfg [] = .ok v) (hq : lib.quiet) :
    ∀ d ∈ v.decorators, ∃ t,
      ((v.basic.map ofBasic = some d ∧ t = "basic") ∨
        (v.oauth.map ofOAuth = some d ∧ t = "oauth2")) ∧
      ∀ req w, ∃ e : events.DecorateEvent,
        e.Type_ = t ∧ e.Err = (d.Decorate req w).1 ∧
        decorateView (d.Decorate req w).2.2
          = (decorateEvents w.dispatched ++ [e], w.decorateListeners,
              decorateDeliveries w.delivered ++ published w.decorateListeners [e]) := by
  obtain ⟨o, ho, hvo, hb, hd⟩ := New_eq lib cfg v h
  intro d hmem
  rw [hd] at hmem
  have hmem1 := (sortSlice_perm _ _).subset hmem
  rcases List.mem_append.1 hmem1 with hm | hm
  · obtain ⟨b, hbm, rfl⟩ := List.mem_map.1 hm
    have hbs : v.basic = some b := by
      cases hvb : v.basic with
      | none => simp [hvb] at hbm
      | some b1 => simp [hvb] at hbm; rw [hbm]
    have hbs1 := hbs
    rw [hb] at hbs1
    have hdisp : b.dispatch = Vouch.dispatch {} := by
      unfold basic.New at hbs1
      split at hbs1
      · cases hbs1
      · cases hbs1; rfl
    exact ⟨"basic", Or.inl ⟨by rw [hbs]; rfl, rfl⟩,
      fun req w => basic.Basic.Decorate_view_basic b {} hdisp req w⟩
  · have hdo : d = ofOAuth o := by simpa using hm
    subst hdo
    refine ⟨"oauth2", Or.inr ⟨by rw [hvo]; rfl, rfl⟩, ?_⟩
    unfold oauth.New at ho
    split at ho
    · cases ho
    · split at ho
      · cases ho
      · cases ho
        intro req w
        refine oauth.OAuth.Decorate_view_oauth _ {} rfl ?_ req w
        exact hq _ (fun w1 => oauth.safetyMarginTokenSource.Token_view _ {} rfl w1)

end vouch

namespace vouch

theorem Vouch.Decorate_invoked_eq (a : Vouch) (req : Request) (w : World) :
    (a.Decorate req w).invoked = (decorateLoop a.decorators 0 [] req (timeNow w).2 []).invoked := by
  unfold Vouch.Decorate
  simp only
  split <;> rfl

theorem decorateLoop_invoked_pos (ds : List decorator) (hne : ds ≠ []) (req : Request)
    (w : World) : 1 ≤ (decorateLoop ds 0 [] req w []).invoked.length := by
  cases ds with
  | nil => exact absurd rfl hne
  | cons d ds =>
    rcases hd : d.Decorate req w with ⟨o, req1, w1⟩
    cases o with
    | none => simp [decorateLoop, hd]
    | some e =>
      have h := (decorateLoop_afterCalls ds 1 [some e] req1 w1 [0]).2.2.2
      simp only [List.length_cons, List.length_nil, Nat.zero_add] at h
      simp only [decorateLoop, hd, List.nil_append, Nat.zero_add, h, List.length_cons,
        List.length_nil]
      omega

theorem decorateLoop_one_event_iff (ds : List decorator) (req : Request) (w : World) :
    (decorateLoop ds 0 [] req w []).invoked.length + (if anySucceeds ds req w then 0 else 1) = 1
      ↔ (ds = [] ∨ (outcomes ds req w).head? = some none) := by
  cases ds with
  | nil => simp [decorateLoop, anySucceeds, outcomes]
  | cons d ds =>
    rcases hd : d.Decorate req w with ⟨o, req1, w1⟩
    cases o with
    | none => simp [decorateLoop, hd, anySucceeds, outcomes]
    | some e =>
      have h := (decorateLoop_afterCalls ds 1 [some e] req1 w1 [0]).2.2.2
      simp only [List.length_cons, List.length_nil, Nat.zero_add] at h
      have hany : anySucceeds (d :: ds) req w = anySucceeds ds req1 w1 := by
        simp [anySucceeds, outcomes, hd]
      have hhead : (outcomes (d :: ds) req w).head? = some (some e) := by
        simp [outcomes, hd]
      rw [hany, hhead]
      simp only [decorateLoop, hd, List.nil_append, Nat.zero_add, h, List.length_cons,
        List.length_nil]
      constructor
      · intro hc
        exfalso
        cases hs : anySucceeds ds req1 w1 with
        | false => simp [hs] at hc
        | true =>
          have hds : ds ≠ [] := by
            intro hnil
            simp [hnil, anySucceeds, outcomes] at hs
          have := decorateLoop_invoked_pos ds hds req1 w1
          simp only [hs, if_true] at hc
          omega
      · intro hc
        simp at hc

end vouch

theorem timeSince_dispatched (t : Time) (w : World) :
    (timeSince t w).2.dispatched = w.dispatched := rfl

theorem timeSince_delivered (t : Time) (w : World) :
    (timeSince t w).2.delivered = w.delivered := rfl

theorem oauth.Oauth2.failing_quiet : oauth.Oauth2.failing.quiet :=
  fun _ h w => h w

namespace vouch

/-- C13 (as claimed, refuted): on the chain that `New` builds from a
configuration with both strategies, with a token endpoint that fails, one call
of `Decorate` returns nil after calling both strategies and two
`DecorateEvent`s are dispatched, of `Type` "oauth2" and "basic"; a decorate
listener registered before the call is invoked twice.  On the chain with the
OAuth strategy only, the call fails and two `DecorateEvent`s are dispatched,
of `Type` "oauth2" and "none". -/
theorem Vouch.Decorate_events_counterexample :
    (∃ v, New oauth.Oauth2.failing Config.both [] = .ok v ∧
        (v.Decorate ⟨[]⟩ World.initial).err = none ∧
        (v.Decorate ⟨[]⟩ World.initial).invoked = [0, 1] ∧
        (decorateEvents (v.Decorate ⟨[]⟩ World.initial).world.dispatched).map (·.Type_)
          = ["oauth2", "basic"] ∧
        decorateCalls 0
          (v.Decorate ⟨[]⟩ (v.AddDecorateEventListener 7 World.initial).2).world.delivered = 2) ∧
      ∃ v, New oauth.Oauth2.failing Config.oauthOnly [] = .ok v ∧
        (v.Decorate ⟨[]⟩ World.initial).err
          = some (.join [.leaf "token endpoint unreachable"]) ∧
        (v.Decorate ⟨[]⟩ World.initial).invoked = [0] ∧
        (decorateEvents (v.Decorate ⟨[]⟩ World.initial).world.dispatched).map (·.Type_)
          = ["oauth2", "none"] :=
  ⟨⟨_, rfl, rfl, rfl, rfl, rfl⟩, ⟨_, rfl, rfl, rfl, rfl⟩⟩

/-- C13 (amended): on a chain built by `New`, with a reusing token source
that dispatches no `DecorateEvent` of its own, every call of `Decorate`
produces one `DecorateEvent` for each strategy it calls, in the order of the
calls, of `Type` "basic" for the Basic strategy and "oauth2" for the OAuth
strategy and carrying the error that strategy returned (nil when it
succeeded), and, when no strategy succeeds, one more, of `Type` "none" and
carrying the returned error.  These are all the `DecorateEvent`s of the call,
the decorate listeners are left as they were, and each event is published
exactly once to every registered decorate listener.  So exactly one
`DecorateEvent` is produced exactly when the first strategy of the chain
succeeds or the chain has no strategy. -/
theorem Vouch.Decorate_events (lib : oauth.Oauth2) (cfg : Config) (v : Vouch)
    (h : New lib cfg [] = .ok v) (hq : lib.quiet) (req : Request) (w : World) :
    ∃ (evs : List events.DecorateEvent) (ev : events.DecorateEvent),
      ev.Type_ = "none" ∧ ev.Err = (v.Decorate req w).err ∧
      evs.length = (v.Decorate req w).invoked.length ∧
      evs.map (fun e => e.Err) = (outcomes v.decorators req (timeNow w).2).take evs.length ∧
      List.Forall₂
        (fun d e => (v.basic.map ofBasic = some d ∧ e.Type_ = "basic") ∨
          (v.oauth.map ofOAuth = some d ∧ e.Type_ = "oauth2"))
        (v.decorators.take evs.length) evs ∧
      decorateEvents (v.Decorate req w).world.dispatched
        = decorateEvents w.dispatched ++
            (evs ++ if anySucceeds v.decorators req (timeNow w).2 then [] else [ev]) ∧
      (v.Decorate req w).world.decorateListeners = w.decorateListeners ∧
      decorateDeliveries (v.Decorate req w).world.delivered
        = decorateDeliveries w.delivered ++
            published w.decorateListeners
              (evs ++ if anySucceeds v.decorators req (timeNow w).2 then [] else [ev]) ∧
      ((evs ++ if anySucceeds v.decorators req (timeNow w).2 then [] else [ev]).length = 1
        ↔ (v.decorators = [] ∨
            (outcomes v.decorators req (timeNow w).2).head? = some none)) := by
  obtain ⟨evs, hlen, herrs, hty, hv⟩ :=
    afterCalls_view
      (fun d t => (v.basic.map ofBasic = some d ∧ t = "basic") ∨
        (v.oauth.map ofOAuth = some d ∧ t = "oauth2"))
      v.decorators (New_decorators_view lib cfg v h hq) req (timeNow w).2
  have hone := decorateLoop_one_event_iff v.decorators req (timeNow w).2
  rw [← hlen] at hone
  have h1 : decorateEvents (afterCalls v.decorators req (timeNow w).2).2.dispatched
      = decorateEvents w.dispatched ++ evs := congrArg Prod.fst hv
  have h2 : (afterCalls v.decorators req (timeNow w).2).2.decorateListeners
      = w.decorateListeners := congrArg (fun p => p.2.1) hv
  have h3 : decorateDeliveries (afterCalls v.decorators req (timeNow w).2).2.delivered
      = decorateDeliveries w.delivered ++ published w.decorateListeners evs :=
    congrArg (fun p => p.2.2) hv
  have herr := Vouch.Decorate_err_eq v req w
  have hworld := Vouch.Decorate_world_eq v req w
  refine ⟨evs,
    { At := (timeNow w).1, Type_ := "none",
      Duration := (timeSince (timeNow w).1 (afterCalls v.decorators req (timeNow w).2).2).1,
      Expiration := 0, Err := (v.Decorate req w).err },
    rfl, rfl, by rw [hlen, Vouch.Decorate_invoked_eq], herrs, hty, ?_, ?_, ?_, ?_⟩
  · cases hany : anySucceeds v.decorators req (timeNow w).2 with
    | true =>
      rw [hworld, hany]
      simpa using h1
    | false =>
      rw [hany] at herr
      rw [hworld, hany, herr]
      simp only [Bool.false_eq_true, if_false, Vouch.dispatch_dispatched, decorateEvents_append,
        timeSince_dispatched]
      rw [← List.append_assoc, ← h1]
      rfl
  · cases hany : anySucceeds v.decorators req (timeNow w).2 with
    | true =>
      rw [hworld, hany]
      simpa using h2
    | false =>
      rw [hworld, hany]
      simp only [Bool.false_eq_true, if_false, Vouch.dispatch_decorateListeners]
      exact h2
  · cases hany : anySucceeds v.decorators req (timeNow w).2 with
    | true =>
      rw [hworld, hany]
      simpa using h3
    | false =>
      rw [hany] at herr
      rw [hworld, hany, herr]
      simp only [Bool.false_eq_true, if_false, Vouch.dispatch_decorate_delivered,
        decorateDeliveries_append, published_append, timeSince_delivered]
      rw [← List.append_assoc, ← h3]
      have hl : (timeSince (timeNow w).1
          (afterCalls v.decorators req (timeNow w).2).2).2.decorateListeners
            = w.decorateListeners := h2
      rw [hl]
      congr 1
      simp only [published, decorateDeliveries, List.flatMap_cons, List.flatMap_nil,
        List.append_nil, List.filterMap_map]
      induction w.decorateListeners.regs with
      | nil => rfl
      | cons r rs ih => simp [List.filterMap_cons, ih]
  · rw [← hone]
    cases anySucceeds v.decorators req (timeNow w).2 <;> simp

theorem Vouch.Decorate_events_witness :
    ∃ v, New oauth.Oauth2.failing Config.both [] = .ok v ∧ oauth.Oauth2.failing.quiet ∧
      ∃ (evs : List events.DecorateEvent) (ev : events.DecorateEvent),
        ev.Type_ = "none" ∧ ev.Err = (v.Decorate ⟨[]⟩ World.initial).err ∧
        evs.length = (v.Decorate ⟨[]⟩ World.initial).invoked.length ∧
        evs.map (fun e => e.Err)
          = (outcomes v.decorators ⟨[]⟩ (timeNow World.initial).2).take evs.length ∧
        List.Forall₂
          (fun d e => (v.basic.map ofBasic = some d ∧ e.Type_ = "basic") ∨
            (v.oauth.map ofOAuth = some d ∧ e.Type_ = "oauth2"))
          (v.decorators.take evs.length) evs ∧
        decorateEvents (v.Decorate ⟨[]⟩ World.initial).world.dispatched
          = decorateEvents World.initial.dispatched ++
              (evs ++ if anySucceeds v.decorators ⟨[]⟩ (timeNow World.initial).2 then []
                else [ev]) ∧
        (v.Decorate ⟨[]⟩ World.initial).world.decorateListeners
          = World.initial.decorateListeners ∧
        decorateDeliveries (v.Decorate ⟨[]⟩ World.initial).world.delivered
          = decorateDeliveries World.initial.delivered ++
              published World.initial.decorateListeners
                (evs ++ if anySucceeds v.decorators ⟨[]⟩ (timeNow World.initial).2 then []
                  else [ev]) ∧
        ((evs ++ if anySucceeds v.decorators ⟨[]⟩ (timeNow World.initial).2 then []
            else [ev]).length = 1
          ↔ (v.decorators = [] ∨
              (outcomes v.decorators ⟨[]⟩ (timeNow World.initial).2).head? = some none)) :=
  ⟨_, rfl, oauth.Oauth2.failing_quiet,
    Vouch.Decorate_events oauth.Oauth2.failing Config.both _ rfl oauth.Oauth2.failing_quiet
      ⟨[]⟩ World.initial⟩

end vouch

/-! ## Listeners -/

theorem fetchCalls_append (reg : Nat) (l1 l2 : List Delivery) :
    fetchCalls reg (l1 ++ l2) = fetchCalls reg l1 + fetchCalls reg l2 := by
  simp [fetchCalls]

theorem decorateCalls_append (reg : Nat) (l1 l2 : List Delivery) :
    decorateCalls reg (l1 ++ l2) = decorateCalls reg l1 + decorateCalls reg l2 := by
  simp [decorateCalls]

theorem fetchCalls_onFetch (reg : Nat) (e : events.FetchEvent) (rs : List (Nat × Nat)) :
    fetchCalls reg (rs.map fun r => .onFetch r.1 r.2 e)
      = (rs.filter fun r => r.1 == reg).length := by
  induction rs with
  | nil => rfl
  | cons r rs ih =>
    simp only [fetchCalls] at ih
    by_cases h : r.1 = reg <;> simp [fetchCalls, List.filter_cons, h, ih]

theorem fetchCalls_onDecorate (reg : Nat) (e : events.DecorateEvent) (rs : List (Nat × Nat)) :
    fetchCalls reg (rs.map fun r => .onDecorate r.1 r.2 e) = 0 := by
  induction rs with
  | nil => rfl
  | cons r rs ih =>
    simp only [fetchCalls] at ih
    simp [fetchCalls, List.filter_cons, ih]

theorem decorateCalls_onDecorate (reg : Nat) (e : events.DecorateEvent)
    (rs : List (Nat × Nat)) :
    decorateCalls reg (rs.map fun r => .onDecorate r.1 r.2 e)
      = (rs.filter fun r => r.1 == reg).length := by
  induction rs with
  | nil => rfl
  | cons r rs ih =>
    simp only [decorateCalls] at ih
    by_cases h : r.1 = reg <;> simp [decorateCalls, List.filter_cons, h, ih]

theorem decorateCalls_onFetch (reg : Nat) (e : events.FetchEvent) (rs : List (Nat × Nat)) :
    decorateCalls reg (rs.map fun r => .onFetch r.1 r.2 e) = 0 := by
  induction rs with
  | nil => rfl
  | cons r rs ih =>
    simp only [decorateCalls] at ih
    simp [decorateCalls, List.filter_cons, ih]

theorem Eventor.filter_ne_next (e : Eventor) (h : e.wellFormed = true) :
    e.regs.filter (fun r => r.1 != e.next) = e.regs := by
  rw [List.filter_eq_self]
  intro r hr
  have := List.all_eq_true.1 h r hr
  simp at this
  simp
  omega

theorem Eventor.filter_eq_next (e : Eventor) (h : e.wellFormed = true) :
    e.regs.filter (fun r => r.1 == e.next) = [] := by
  rw [List.filter_eq_nil_iff]
  intro r hr
  have := List.all_eq_true.1 h r hr
  simp at this
  simp
  omega

theorem Eventor.cancel_Add (e : Eventor) (listener : Nat) (h : e.wellFormed = true) :
    ((e.Add listener).2.cancel (e.Add listener).1).regs = e.regs := by
  simp [Eventor.Add, Eventor.cancel, List.filter_append, Eventor.filter_ne_next e h]

theorem Eventor.cancel_cancel (e : Eventor) (reg : Nat) :
    (e.cancel reg).cancel reg = e.cancel reg := by
  simp [Eventor.cancel, List.filter_filter]

theorem Eventor.cancel_filter (e : Eventor) (reg : Nat) :
    (e.cancel reg).regs.filter (fun r => r.1 == reg) = [] := by
  simp [Eventor.cancel, List.filter_filter]

theorem Eventor.Add_filter (e : Eventor) (listener : Nat) (h : e.wellFormed = true) :
    (e.Add listener).2.regs.filter (fun r => r.1 == e.next) = [(e.next, listener)] := by
  simp [Eventor.Add, List.filter_append, Eventor.filter_eq_next e h]

theorem Eventor.Add_wellFormed (e : Eventor) (listener : Nat) (h : e.wellFormed = true) :
    (e.Add listener).2.wellFormed = true := by
  simp only [Eventor.wellFormed, List.all_eq_true, decide_eq_true_eq] at h ⊢
  intro r hr
  simp only [Eventor.Add, List.mem_append, List.mem_singleton] at hr
  rcases hr with hr | rfl
  · have := h r hr
    simp only [Eventor.Add]
    omega
  · simp [Eventor.Add]

namespace vouch

theorem Vouch.AddFetchEventListener_calls (a : Vouch) (listener : Nat) (w : World)
    (hwf : w.fetchListeners.wellFormed = true) :
    (a.AddFetchEventListener listener w).2.fetchListeners.regs = w.fetchListeners.regs ++ [(w.fetchListeners.next, listener)] ∧
      (a.AddFetchEventListener listener w).2.decorateListeners = w.decorateListeners ∧
      (∀ e, (a.dispatch (.fetch e) (a.AddFetchEventListener listener w).2).delivered
        = w.delivered ++ (w.fetchListeners.regs.map (fun r => Delivery.onFetch r.1 r.2 e)
            ++ [Delivery.onFetch w.fetchListeners.next listener e])) ∧
      (∀ e, fetchCalls w.fetchListeners.next (a.dispatch (.fetch e) (a.AddFetchEventListener listener w).2).delivered
        = fetchCalls w.fetchListeners.next w.delivered + 1) ∧
      (∀ e w1, fetchCalls w.fetchListeners.next (a.dispatch (.fetch e) w1).delivered
        = fetchCalls w.fetchListeners.next w1.delivered
          + (w1.fetchListeners.regs.filter (fun r => r.1 == w.fetchListeners.next)).length) ∧
      (∀ e w1, fetchCalls w.fetchListeners.next (a.dispatch (.decorate e) w1).delivered
        = fetchCalls w.fetchListeners.next w1.delivered) ∧
      (∀ e w1, (a.dispatch e w1).fetchListeners = w1.fetchListeners) ∧
      (∀ e w1, fetchCalls w.fetchListeners.next (a.dispatch (.fetch e) ((a.AddFetchEventListener listener w).1 w1)).delivered
        = fetchCalls w.fetchListeners.next w1.delivered) ∧
      ((a.AddFetchEventListener listener w).1 (a.AddFetchEventListener listener w).2).fetchListeners.regs = w.fetchListeners.regs ∧
      (∀ w1, (a.AddFetchEventListener listener w).1 ((a.AddFetchEventListener listener w).1 w1) = (a.AddFetchEventListener listener w).1 w1) := by
  refine ⟨by simp [Vouch.AddFetchEventListener, Eventor.Add], rfl, ?_, ?_, ?_, ?_, ?_, ?_, ?_, ?_⟩
  · intro e
    rw [Vouch.dispatch_fetch_delivered]
    simp [Vouch.AddFetchEventListener, Eventor.Add]
  · intro e
    rw [Vouch.dispatch_fetch_delivered, fetchCalls_append, fetchCalls_onFetch]
    have h1 := Eventor.Add_filter w.fetchListeners listener hwf
    simp only [Vouch.AddFetchEventListener]
    rw [h1]
    rfl
  · intro e w1
    rw [Vouch.dispatch_fetch_delivered, fetchCalls_append, fetchCalls_onFetch]
  · intro e w1
    rw [Vouch.dispatch_decorate_delivered, fetchCalls_append, fetchCalls_onDecorate]
    rfl
  · intro e w1
    exact Vouch.dispatch_fetchListeners a e w1
  · intro e w1
    rw [Vouch.dispatch_fetch_delivered, fetchCalls_append, fetchCalls_onFetch]
    have h1 := Eventor.cancel_filter w1.fetchListeners w.fetchListeners.next
    simp only [Vouch.AddFetchEventListener, Eventor.Add]
    rw [h1]
    rfl
  · exact Eventor.cancel_Add w.fetchListeners listener hwf
  · intro w1
    simp only [Vouch.AddFetchEventListener, Eventor.cancel_cancel]

theorem Vouch.AddDecorateEventListener_calls (a : Vouch) (listener : Nat) (w : World)
    (hwf : w.decorateListeners.wellFormed = true) :
    (a.AddDecorateEventListener listener w).2.decorateListeners.regs = w.decorateListeners.regs ++ [(w.decorateListeners.next, listener)] ∧
      (a.AddDecorateEventListener listener w).2.fetchListeners = w.fetchListeners ∧
      (∀ e, (a.dispatch (.decorate e) (a.AddDecorateEventListener listener w).2).delivered
        = w.delivered ++ (w.decorateListeners.regs.map (fun r => Delivery.onDecorate r.1 r.2 e)
            ++ [Delivery.onDecorate w.decorateListeners.next listener e])) ∧
      (∀ e, decorateCalls w.decorateListeners.next (a.dispatch (.decorate e) (a.AddDecorateEventListener listener w).2).delivered
        = decorateCalls w.decorateListeners.next w.delivered + 1) ∧
      (∀ e w1, decorateCalls w.decorateListeners.next (a.dispatch (.decorate e) w1).delivered
        = decorateCalls w.decorateListeners.next w1.delivered
          + (w1.decorateListeners.regs.filter (fun r => r.1 == w.decorateListeners.next)).length) ∧
      (∀ e w1, decorateCalls w.decorateListeners.next (a.dispatch (.fetch e) w1).delivered
        = decorateCalls w.decorateListeners.next w1.delivered) ∧
      (∀ e w1, (a.dispatch e w1).decorateListeners = w1.decorateListeners) ∧
      (∀ e w1, decorateCalls w.decorateListeners.next (a.dispatch (.decorate e) ((a.AddDecorateEventListener listener w).1 w1)).delivered
        = decorateCalls w.decorateListeners.next w1.delivered) ∧
      ((a.AddDecorateEventListener listener w).1 (a.AddDecorateEventListener listener w).2).decorateListeners.regs = w.decorateListeners.regs ∧
      (∀ w1, (a.AddDecorateEventListener listener w).1 ((a.AddDecorateEventListener listener w).1 w1) = (a.AddDecorateEventListener listener w).1 w1) := by
  refine ⟨by simp [Vouch.AddDecorateEventListener, Eventor.Add], rfl, ?_, ?_, ?_, ?_, ?_, ?_, ?_, ?_⟩
  · intro e
    rw [Vouch.dispatch_decorate_delivered]
    simp [Vouch.AddDecorateEventListener, Eventor.Add]
  · intro e
    rw [Vouch.dispatch_decorate_delivered, decorateCalls_append, decorateCalls_onDecorate]
    have h1 := Eventor.Add_filter w.decorateListeners listener hwf
    simp only [Vouch.AddDecorateEventListener]
    rw [h1]
    rfl
  · intro e w1
    rw [Vouch.dispatch_decorate_delivered, decorateCalls_append, decorateCalls_onDecorate]
  · intro e w1
    rw [Vouch.dispatch_fetch_delivered, decorateCalls_append, decorateCalls_onFetch]
    rfl
  · intro e w1
    exact Vouch.dispatch_decorateListeners a e w1
  · intro e w1
    rw [Vouch.dispatch_decorate_delivered, decorateCalls_append, decorateCalls_onDecorate]
    have h1 := Eventor.cancel_filter w1.decorateListeners w.decorateListeners.next
    simp only [Vouch.AddDecorateEventListener, Eventor.Add]
    rw [h1]
    rfl
  · exact Eventor.cancel_Add w.decorateListeners listener hwf
  · intro w1
    simp only [Vouch.AddDecorateEventListener, Eventor.cancel_cancel]

/-- C14: a listener registered with `AddFetchEventListener` is registered once,
after the listeners already there, and the decorate listeners are untouched.
A `FetchEvent` dispatched next is handed once to each earlier listener and
then once to the new one.  In any later world a `FetchEvent` calls the
registration once while it is live, a `DecorateEvent` never calls it, and
`dispatch` leaves the collection as it is.  After the returned cancel function
has been called, in whatever world, a `FetchEvent` calls the registration no
more; called right after the registration it leaves the earlier registrations
as they were; called a second time it changes nothing.  The same holds of
`AddDecorateEventListener` with the two kinds of event exchanged.  The
collections are assumed to have started out empty (`wellFormed`). -/
theorem Vouch.listener_calls (a : Vouch) (listener : Nat) (w : World)
    (hf : w.fetchListeners.wellFormed = true) (hd : w.decorateListeners.wellFormed = true) :
    ((a.AddFetchEventListener listener w).2.fetchListeners.regs = w.fetchListeners.regs ++ [(w.fetchListeners.next, listener)] ∧
      (a.AddFetchEventListener listener w).2.decorateListeners = w.decorateListeners ∧
      (∀ e, (a.dispatch (.fetch e) (a.AddFetchEventListener listener w).2).delivered
        = w.delivered ++ (w.fetchListeners.regs.map (fun r => Delivery.onFetch r.1 r.2 e)
            ++ [Delivery.onFetch w.fetchListeners.next listener e])) ∧
      (∀ e, fetchCalls w.fetchListeners.next (a.dispatch (.fetch e) (a.AddFetchEventListener listener w).2).delivered
        = fetchCalls w.fetchListeners.next w.delivered + 1) ∧
      (∀ e w1, fetchCalls w.fetchListeners.next (a.dispatch (.fetch e) w1).delivered
        = fetchCalls w.fetchListeners.next w1.delivered
          + (w1.fetchListeners.regs.filter (fun r => r.1 == w.fetchListeners.next)).length) ∧
      (∀ e w1, fetchCalls w.fetchListeners.next (a.dispatch (.decorate e) w1).delivered
        = fetchCalls w.fetchListeners.next w1.delivered) ∧
      (∀ e w1, (a.dispatch e w1).fetchListeners = w1.fetchListeners) ∧
      (∀ e w1, fetchCalls w.fetchListeners.next (a.dispatch (.fetch e) ((a.AddFetchEventListener listener w).1 w1)).delivered
        = fetchCalls w.fetchListeners.next w1.delivered) ∧
      ((a.AddFetchEventListener listener w).1 (a.AddFetchEventListener listener w).2).fetchListeners.regs = w.fetchListeners.regs ∧
      (∀ w1, (a.AddFetchEventListener listener w).1 ((a.AddFetchEventListener listener w).1 w1) = (a.AddFetchEventListener listener w).1 w1)) ∧
    ((a.AddDecorateEventListener listener w).2.decorateListeners.regs = w.decorateListeners.regs ++ [(w.decorateListeners.next, listener)] ∧
      (a.AddDecorateEventListener listener w).2.fetchListeners = w.fetchListeners ∧
      (∀ e, (a.dispatch (.decorate e) (a.AddDecorateEventListener listener w).2).delivered
        = w.delivered ++ (w.decorateListeners.regs.map (fun r => Delivery.onDecorate r.1 r.2 e)
            ++ [Delivery.onDecorate w.decorateListeners.next listener e])) ∧
      (∀ e, decorateCalls w.decorateListeners.next (a.dispatch (.decorate e) (a.AddDecorateEventListener listener w).2).delivered
        = decorateCalls w.decorateListeners.next w.delivered + 1) ∧
      (∀ e w1, decorateCalls w.decorateListeners.next (a.dispatch (.decorate e) w1).delivered
        = decorateCalls w.decorateListeners.next w1.delivered
          + (w1.decorateListeners.regs.filter (fun r => r.1 == w.decorateListeners.next)).length) ∧
      (∀ e w1, decorateCalls w.decorateListeners.next (a.dispatch (.fetch e) w1).delivered
        = decorateCalls w.decorateListeners.next w1.delivered) ∧
      (∀ e w1, (a.dispatch e w1).decorateListeners = w1.decorateListeners) ∧
      (∀ e w1, decorateCalls w.decorateListeners.next (a.dispatch (.decorate e) ((a.AddDecorateEventListener listener w).1 w1)).delivered
        = decorateCalls w.decorateListeners.next w1.delivered) ∧
      ((a.AddDecorateEventListener listener w).1 (a.AddDecorateEventListener listener w).2).decorateListeners.regs = w.decorateListeners.regs ∧
      (∀ w1, (a.AddDecorateEventListener listener w).1 ((a.AddDecorateEventListener listener w).1 w1) = (a.AddDecorateEventListener listener w).1 w1)) :=
  ⟨Vouch.AddFetchEventListener_calls a listener w hf,
    Vouch.AddDecorateEventListener_calls a listener w hd⟩

theorem Vouch.listener_calls_witness :
    World.initial.fetchListeners.wellFormed = true ∧
      World.initial.decorateListeners.wellFormed = true ∧
      (∀ e, fetchCalls 0
          (Vouch.dispatch {} (.fetch e)
            (Vouch.AddFetchEventListener {} 7 World.initial).2).delivered
        = fetchCalls 0 World.initial.delivered + 1) ∧
      (∀ e w1, fetchCalls 0
          (Vouch.dispatch {} (.decorate e) w1).delivered = fetchCalls 0 w1.delivered) ∧
      (∀ e w1, fetchCalls 0
          (Vouch.dispatch {} (.fetch e)
            ((Vouch.AddFetchEventListener {} 7 World.initial).1 w1)).delivered
        = fetchCalls 0 w1.delivered) ∧
      (∀ e, decorateCalls 0
          (Vouch.dispatch {} (.decorate e)
            (Vouch.AddDecorateEventListener {} 7 World.initial).2).delivered
        = decorateCalls 0 World.initial.delivered + 1) :=
  ⟨rfl, rfl,
    (Vouch.listener_calls {} 7 World.initial rfl rfl).1.2.2.2.1,
    (Vouch.listener_calls {} 7 World.initial rfl rfl).1.2.2.2.2.2.1,
    (Vouch.listener_calls {} 7 World.initial rfl rfl).1.2.2.2.2.2.2.2.1,
    (Vouch.listener_calls {} 7 World.initial rfl rfl).2.2.2.2.1⟩

end vouch
